import Mathlib

/-!
# Verification of the AdaptiveNPCWeb cognition pipeline

Shallow embedding of the memory bank, attention mechanism and emergence
engine of the AdaptiveNPCWeb repository, together with theorems settling
the frozen specification claims.

Numeric JavaScript values are modelled as rationals where the code is
purely arithmetic, and as real numbers where `Math.exp` / `Math.log`
enter.  `Math.random`-driven choices are abstracted as oracle parameters
that the theorems quantify over, so every result holds for every run of
the pseudo-random generator.
-/

namespace AdaptiveNPC

/-! ## Generic association-list operations

JavaScript `Map` objects are modelled as insertion-ordered association
lists.  `Map.set` replaces the value in place when the key exists and
appends otherwise; `Map.delete` removes the entry; `Map.get` returns the
first binding. -/

def alGet {α : Type} : List (String × α) → String → Option α
  | [], _ => none
  | p :: rest, key => if p.1 = key then some p.2 else alGet rest key

def alSet {α : Type} (l : List (String × α)) (key : String) (v : α) : List (String × α) :=
  if l.any (fun p => p.1 == key) then
    l.map (fun p => if p.1 = key then (key, v) else p)
  else l ++ [(key, v)]

def alDelete {α : Type} (l : List (String × α)) (key : String) : List (String × α) :=
  l.filter (fun p => p.1 != key)

/-! ## Emergence engine (src/src/consciousness/emergence-engine.js)

Patterns are produced by `_detectPatterns` from rule activations; the
claims quantify over arbitrary pattern lists, so the embedding takes the
pattern list as an input. -/

structure EPattern where
  type : String
  rules : List String
  strength : ℚ
  outcomes : List String

/-- Registry record kept in `this.emergentPatterns` (`_detectNovelPatterns`).
The stored `pattern` snapshot is never read back by the engine and is
omitted. -/
structure PatternRecord where
  count : ℕ
  firstSeen : ℚ

/-- `_getPatternKey`: `` `${pattern.type}_${pattern.rules.sort().join('_')}` ``.
`Array.prototype.sort` on strings is lexicographic. -/
def getPatternKey (p : EPattern) : String :=
  p.type ++ "_" ++ String.intercalate "_" (List.insertionSort (· ≤ ·) p.rules)

/-- One iteration of the loop body of `_detectNovelPatterns` for a single
pattern: returns the emitted variant (if any) and the updated registry.
`pattern.rules` is sorted in place by `_getPatternKey`, so the emitted
variant carries the sorted rule list. -/
def detectNovelStep (creativityFactor now : ℚ) (reg : List (String × PatternRecord))
    (p : EPattern) : Option EPattern × List (String × PatternRecord) :=
  let key := getPatternKey p
  let sorted := List.insertionSort (· ≤ ·) p.rules
  match alGet reg key with
  | none =>
      (some { p with
                type := "novel"
                rules := sorted
                strength := p.strength * creativityFactor
                outcomes := p.outcomes ++ ["surprising_behavior"] },
       alSet reg key ⟨1, now⟩)
  | some r =>
      let reg' := alSet reg key ⟨r.count + 1, r.firstSeen⟩
      if (r.count + 1) % 10 = 0 then
        (some { p with
                  type := "habit_forming"
                  rules := sorted
                  strength := p.strength * 0.8
                  outcomes := p.outcomes ++ ["habit_formation"] },
         reg')
      else (none, reg')

/-- `_detectNovelPatterns`: processes the pattern list in order against the
shared registry, collecting the emitted variants. -/
def detectNovelPatterns (creativityFactor now : ℚ) (reg : List (String × PatternRecord)) :
    List EPattern → List EPattern × List (String × PatternRecord)
  | [] => ([], reg)
  | p :: rest =>
      let step := detectNovelStep creativityFactor now reg p
      let tail := detectNovelPatterns creativityFactor now step.2 rest
      (step.1.toList ++ tail.1, tail.2)

/-- Context assembled by `_buildContext`; `threat = state.threat || 0`.
Only the `threat` field is read by the suppression rule. -/
structure EmContext where
  threat : ℚ

structure EmBehavior where
  action : String
  strength : ℚ
  pattern : String
  type : String

/-- Oracle abstracting the `Math.random`-driven `_selectOutcome`; the
theorems quantify over every possible selection function. -/
structure EmOracle where
  selectOutcome : List String → String

/-- `_shouldSuppress`: `behavior.action === 'flee' && !context.threat`. -/
def shouldSuppress (b : EmBehavior) (ctx : EmContext) : Bool :=
  b.action == "flee" && decide (ctx.threat = 0)

/-- `_generateEmergentBehavior`: builds the behavior, selects its action,
and returns `null` (here `none`) when the suppression rule fires. -/
def generateEmergentBehavior (o : EmOracle) (p : EPattern) (ctx : EmContext) :
    Option EmBehavior :=
  let behavior : EmBehavior :=
    { action := o.selectOutcome p.outcomes
      strength := p.strength
      pattern := p.type
      type := "emergent" }
  if shouldSuppress behavior ctx then none else some behavior

/-- `_analyzeBehaviorCombination`: fixed combination table keyed by
`` `${behavior1.action}+${behavior2.action}` ``. -/
def analyzeBehaviorCombination (b1 b2 : EmBehavior) : Option EmBehavior :=
  let key := b1.action ++ "+" ++ b2.action
  if key = "create_something+express_emotion" then
    some { action := "artistic_expression"
           strength := (b1.strength + b2.strength) / 2
           pattern := "", type := "meta_emergent" }
  else if key = "play+surprising_behavior" then
    some { action := "playful_prank"
           strength := (b1.strength + b2.strength) / 2
           pattern := "", type := "meta_emergent" }
  else if key = "investigate+ask_questions" then
    some { action := "deep_inquiry"
           strength := (b1.strength + b2.strength) / 2
           pattern := "", type := "meta_emergent" }
  else none

/-- All ordered pairs `(i, j)` with `i < j`, in the order of the nested
loops of `_checkMetaEmergence`. -/
def orderedPairs {α : Type} : List α → List (α × α)
  | [] => []
  | x :: xs => (xs.map (fun y => (x, y))) ++ orderedPairs xs

/-- `_analyzeSequence`: emits a `complex_plan` when every behavior has
strength above 0.6. -/
def analyzeSequence (bs : List EmBehavior) : Option EmBehavior :=
  if bs.all (fun b => decide ((0.6 : ℚ) < b.strength)) then
    some { action := "complex_plan"
           strength := (bs.map (·.strength)).sum / (bs.length : ℚ)
           pattern := "", type := "behavioral_sequence" }
  else none

/-- `_checkMetaEmergence`. -/
def checkMetaEmergence (bs : List EmBehavior) : List EmBehavior :=
  if 2 ≤ bs.length then
    ((orderedPairs bs).filterMap (fun pr => analyzeBehaviorCombination pr.1 pr.2)) ++
      (if 3 ≤ bs.length then (analyzeSequence bs).toList else [])
  else []

/-- `checkEmergence`: generation from the detected patterns (those above
the emergence threshold), followed by meta-emergence over the generated
list.  History bookkeeping does not affect the returned list. -/
def checkEmergence (threshold : ℚ) (o : EmOracle) (patterns : List EPattern)
    (ctx : EmContext) : List EmBehavior :=
  let gen := patterns.filterMap
    (fun p => if threshold < p.strength then generateEmergentBehavior o p ctx else none)
  gen ++ checkMetaEmergence gen

/-- Arbitrarily many successive calls to `checkEmergence`, concatenating
the returned behavior lists. -/
def runEmergence (threshold : ℚ) (o : EmOracle)
    (calls : List (List EPattern × EmContext)) : List EmBehavior :=
  (calls.map (fun c => checkEmergence threshold o c.1 c.2)).flatten

/-! ## Attention mechanism (src/src/consciousness/attention-mechanism.js) -/

/-- A stimulus as inspected by `_calculateSimilarity` and
`_calculateNovelty`; absent JavaScript fields are `none`, and
`undefined === undefined` evaluates to true, matching `Option` equality. -/
structure AStimulus where
  type : Option String
  source : Option String
  target : Option String
  category : Option String

/-- The context object handed to `calculateSalience`; only its truthiness
is read by `_calculateNovelty`. -/
structure AContext where
  goals : List String

/-- `AttentionMechanism._calculateSimilarity`. -/
def attSimilarity (s1 s2 : AStimulus) : ℚ :=
  let sim1 : ℚ := if s1.type = s2.type then 0.3 else 0
  let f1 : ℕ := if s1.type = s2.type then 1 else 0
  let sim2 : ℚ := if s1.source = s2.source then 0.2 else 0
  let f2 : ℕ := if s1.source = s2.source then 1 else 0
  let sim3 : ℚ := if s1.target = s2.target then 0.2 else 0
  let f3 : ℕ := if s1.target = s2.target then 1 else 0
  let sim4 : ℚ := if s1.category = s2.category then 0.3 else 0
  let f4 : ℕ := if s1.category = s2.category then 1 else 0
  let factors := f1 + f2 + f3 + f4
  if factors = 0 then 0 else (sim1 + sim2 + sim3 + sim4) / (factors : ℚ)

/-- `AttentionMechanism._calculateNovelty`: returns 0.5 for a missing
stimulus or context, otherwise folds `novelty = min(novelty, 1 - similarity)`
over the context buffer starting from 1. -/
def calculateNovelty (stimulus : Option AStimulus) (context : Option AContext)
    (contextBuffer : List AStimulus) : ℚ :=
  match stimulus, context with
  | some s, some _ =>
      contextBuffer.foldl (fun novelty past => min novelty (1 - attSimilarity s past)) 1
  | _, _ => 0.5

/-- The running maximum of similarities against the buffer (seeded at 0,
which is a lower bound of `attSimilarity`). -/
def maxSimilarity (s : AStimulus) (contextBuffer : List AStimulus) : ℚ :=
  contextBuffer.foldl (fun m past => max m (attSimilarity s past)) 0

/-! ### Focus switching (`AttentionInstance`) -/

/-- An attended stimulus as returned by the multi-head attention stage;
only its combined `attentionWeight` is read by the inertia rule. -/
structure Attended where
  attentionWeight : ℝ

structure FocusEntry where
  timestamp : ℝ

/-- The slice of `AttentionInstance` state read by `_shouldSwitchFocus`
and `_calculateFocusStrength`; `focusDecayRate` comes from the config. -/
structure AttnInstance where
  currentFocus : Option Attended
  focusHistory : List FocusEntry
  distractionResistance : ℝ
  focusDecayRate : ℝ

/-- `_calculateFocusStrength`: the previous attention weight decayed
exponentially with the time since the focus was acquired. -/
noncomputable def calculateFocusStrength (inst : AttnInstance) (now : ℝ) : ℝ :=
  match inst.currentFocus with
  | none => 0
  | some f =>
      match inst.focusHistory.getLast? with
      | none => 0
      | some lastFocus =>
          f.attentionWeight * Real.exp (-inst.focusDecayRate * (now - lastFocus.timestamp) / 1000)

/-- `_shouldSwitchFocus`: with no current focus any stimulus takes over;
otherwise the challenger must beat the decayed strength scaled by
`1 + distractionResistance`. -/
def shouldSwitchFocus (inst : AttnInstance) (now : ℝ) (newStimulus : Attended) : Prop :=
  match inst.currentFocus with
  | none => True
  | some _ =>
      newStimulus.attentionWeight >
        calculateFocusStrength inst now * (1 + inst.distractionResistance)

/-! ### Concrete instances for the emergence and attention claims -/

def p0 : EPattern :=
  { type := "single", rules := ["a"], strength := 1, outcomes := ["search"] }

def reg9 : List (String × PatternRecord) := [("single_a", ⟨9, 0⟩)]

def oracle0 : EmOracle := ⟨fun _ => "investigate"⟩

def calls0 : List (List EPattern × EmContext) :=
  [([{ type := "single", rules := ["curiosity_driven"], strength := 1,
       outcomes := ["investigate"] }], ⟨0⟩)]

def stim0 : AStimulus := ⟨some "event", none, none, none⟩

def actx0 : AContext := ⟨[]⟩

noncomputable def attn0 : AttnInstance :=
  { currentFocus := some ⟨0.8⟩
    focusHistory := [⟨2000⟩]
    distractionResistance := 0.5
    focusDecayRate := 0.1 }

/-! ## Memory bank (src/unnamed/part_001)

Numeric fields are real numbers because the forgetting curve, the
relevance ranking and the similarity blend use `Math.exp` / `Math.log`;
comparisons on them are resolved classically. -/

noncomputable section MemoryBank

open Classical

inductive MemCategory
  | episodic
  | semantic
  | procedural
  | emotional
deriving DecidableEq

/-- `Object.keys(this.memories)` in declaration order. -/
def categoriesList : List MemCategory :=
  [.episodic, .semantic, .procedural, .emotional]

structure Assoc where
  targetId : String
  strength : ℝ
  type : String

/-- A stored memory record.  The `relevance`, `relevanceScore`,
`associationStrength` and `associationType` fields are populated only on
the copies produced by the query pipeline. -/
structure Memory where
  id : String
  ownerId : String
  timestamp : ℝ
  strength : ℝ
  importance : ℝ
  accessCount : ℕ
  lastAccessed : Option ℝ
  consolidated : Bool
  consolidatedAt : Option ℝ
  persisted : Bool
  category : MemCategory
  type : Option String
  content : Option String
  context : Option (List (String × String))
  emotionalContext : Option (List (String × ℝ))
  emotionalImpact : Bool
  relevance : Option ℝ
  relevanceScore : Option ℝ
  associationStrength : Option ℝ
  associationType : Option String

/-- The caller-supplied object handed to `store`; `store` mutates it in
place, overwriting some fields and keeping the rest.  A caller-supplied
`importance` is a number (an absent `importance` would propagate `NaN`
through the arithmetic, which is outside this embedding; it is modelled
as 0, which the boost guard likewise treats as falsy). -/
structure MemoryInput where
  id : Option String
  timestamp : Option ℝ
  strength : Option ℝ
  importance : ℝ
  accessCount : Option ℕ
  category : Option MemCategory
  type : Option String
  content : Option String
  context : Option (List (String × String))
  emotionalContext : Option (List (String × ℝ))
  emotionalImpact : Bool
  consolidated : Bool
  consolidatedAt : Option ℝ
  lastAccessed : Option ℝ
  persisted : Bool

/-- The `MemoryBank` configuration (constructor defaults:
`consolidationThreshold` 0.7, `forgettingRate` 0.001,
`associationStrength` 0.3, `emotionalBoost` 1.5). -/
structure MemoryConfig where
  consolidationThreshold : ℝ
  forgettingRate : ℝ
  associationStrength : ℝ
  emotionalBoost : ℝ

/-- The per-instance state touched by the claims: the four category maps,
the working memory, the association graph and the parent's contextual
index.  (The temporal and importance indices, statistics counters and the
consolidation queue are written but never read by any claimed
operation.) -/
structure Bank where
  memories : MemCategory → List (String × Memory)
  workingMemory : List Memory
  associations : List (String × List Assoc)
  contextualIndex : List (String × List String)

def emptyBank : Bank :=
  { memories := fun _ => []
    workingMemory := []
    associations := []
    contextualIndex := [] }

def setCat (b : Bank) (c : MemCategory) (l : List (String × Memory)) : Bank :=
  { b with memories := fun c' => if c' = c then l else b.memories c' }

/-- JavaScript `x || d` on an optional number: `undefined`, `null` and
`0` all fall back to the default. -/
def jsOr (v : Option ℝ) (d : ℝ) : ℝ :=
  match v with
  | none => d
  | some x => if x = 0 then d else x

/-- `_calculateEmotionalIntensity`: mean absolute value of the numeric
emotion entries. -/
def emotionalIntensity (emotions : List (String × ℝ)) : ℝ :=
  if emotions.length = 0 then 0
  else (emotions.map (fun kv => |kv.2|)).sum / (emotions.length : ℝ)

/-- `_categorizeMemory`. -/
def categorizeMemory (m : MemoryInput) : MemCategory :=
  match m.category with
  | some c => c
  | none =>
      if m.type = some "interaction" ∨ m.type = some "event" then .episodic
      else if m.type = some "knowledge" ∨ m.type = some "fact" then .semantic
      else if m.type = some "skill" ∨ m.type = some "procedure" then .procedural
      else if m.emotionalContext.isSome ∧ m.emotionalImpact then .emotional
      else .episodic

/-- The record-level part of `store` (lines 348-364): fresh id, owner,
timestamp/strength defaults, reset access count, category, and the
emotional importance boost
`importance *= 1 + emotionalIntensity * config.emotionalBoost`
guarded by the truthiness of `emotionalContext` and `importance`. -/
def storeRecord (cfg : MemoryConfig) (ownerId freshId : String) (now : ℝ)
    (input : MemoryInput) : Memory :=
  { id := freshId
    ownerId := ownerId
    timestamp := jsOr input.timestamp now
    strength := jsOr input.strength 0.5
    importance :=
      if input.emotionalContext.isSome ∧ input.importance ≠ 0 then
        input.importance *
          (1 + emotionalIntensity (input.emotionalContext.getD []) * cfg.emotionalBoost)
      else input.importance
    accessCount := 0
    lastAccessed := input.lastAccessed
    consolidated := input.consolidated
    consolidatedAt := input.consolidatedAt
    persisted := input.persisted
    category := categorizeMemory input
    type := input.type
    content := input.content
    context := input.context
    emotionalContext := input.emotionalContext
    emotionalImpact := input.emotionalImpact
    relevance := none
    relevanceScore := none
    associationStrength := none
    associationType := none }

/-- `MemoryBank._compareContexts`. -/
def compareContexts (c1 c2 : List (String × String)) : ℝ :=
  let shared := c1.filterMap (fun kv => (alGet c2 kv.1).map (fun v2 => (kv.2, v2)))
  if shared.length = 0 then 0
  else ((shared.filter (fun pr => pr.1 == pr.2)).length : ℝ) / (shared.length : ℝ)

/-- `MemoryBank._compareEmotions`. -/
def compareEmotions (e1 e2 : List (String × ℝ)) : ℝ :=
  let shared := e1.filterMap (fun kv => (alGet e2 kv.1).map (fun v2 => (kv.2, v2)))
  if shared.length = 0 then 0
  else (shared.map (fun pr => 1 - |pr.1 - pr.2|)).sum / (shared.length : ℝ)

/-- `MemoryBank._calculateSimilarity`: weighted blend of type, context,
temporal-proximity and emotional components, averaged over the factors
that applied (the temporal factor always applies). -/
def memSimilarity (m1 m2 : Memory) : ℝ :=
  let typeSim : ℝ := if m1.type = m2.type then 0.3 else 0
  let typeF : ℕ := if m1.type = m2.type then 1 else 0
  let ctxSim : ℝ :=
    match m1.context, m2.context with
    | some c1, some c2 => compareContexts c1 c2 * 0.3
    | _, _ => 0
  let ctxF : ℕ :=
    match m1.context, m2.context with
    | some _, some _ => 1
    | _, _ => 0
  let tempSim : ℝ :=
    Real.exp (-|m1.timestamp - m2.timestamp| / (24 * 60 * 60 * 1000)) * 0.2
  let emoSim : ℝ :=
    match m1.emotionalContext, m2.emotionalContext with
    | some e1, some e2 => compareEmotions e1 e2 * 0.2
    | _, _ => 0
  let emoF : ℕ :=
    match m1.emotionalContext, m2.emotionalContext with
    | some _, some _ => 1
    | _, _ => 0
  let factors := typeF + ctxF + 1 + emoF
  if factors = 0 then 0 else (typeSim + ctxSim + tempSim + emoSim) / (factors : ℝ)

/-- Deduplicate by id keeping the first occurrence (`_updateWorkingMemory`
and the `Map`-based dedup of `_queryByContext`). -/
def dedupeById : List Memory → List String → List Memory
  | [], _ => []
  | m :: rest, seen =>
      if m.id ∈ seen then dedupeById rest seen
      else m :: dedupeById rest (m.id :: seen)

/-- `_updateWorkingMemory`: unshift, dedupe by id, cap at 20. -/
def updateWorkingMemory (wm : List Memory) (m : Memory) : List Memory :=
  (dedupeById (m :: wm) []).take 20

/-- `_getMemoryById`: first hit across the category maps in declaration
order. -/
def getMemoryById (b : Bank) (id : String) : Option Memory :=
  (categoriesList.filterMap (fun c => alGet (b.memories c) id)).head?

/-- `_queryByContext`: union of the contextual-index buckets of each
`key:value` pair, resolved to live records and deduplicated. -/
def queryByContext (b : Bank) (ctx : List (String × String)) : List Memory :=
  let ids := ctx.foldl
    (fun acc kv => acc ++ ((alGet b.contextualIndex (kv.1 ++ ":" ++ kv.2)).getD [])) []
  dedupeById (ids.filterMap (getMemoryById b)) []

/-- `_findByContext`. -/
def findByContext (b : Bank) (ctx : List (String × String)) (limit : ℕ) : List Memory :=
  (queryByContext b ctx).take limit

/-- The temporal associations built by `_createAssociations`: links to
sufficiently similar working-memory entries, skipping the new record at
the head. -/
def temporalAssocs (cfg : MemoryConfig) (b : Bank) (m : Memory) : List Assoc :=
  (b.workingMemory.drop 1).filterMap
    (fun w =>
      if cfg.associationStrength < memSimilarity m w then
        some ({ targetId := w.id, strength := memSimilarity m w, type := "temporal" } : Assoc)
      else none)

/-- The contextual associations built by `_createAssociations`: fixed
strength 0.5 to up to 5 records sharing the context. -/
def contextualAssocs (b : Bank) (m : Memory) : List Assoc :=
  match m.context with
  | some ctx =>
      (findByContext b ctx 5).filterMap
        (fun c =>
          if c.id ≠ m.id then
            some ({ targetId := c.id, strength := 0.5, type := "contextual" } : Assoc)
          else none)
  | none => []

/-- The reverse edges pushed onto each association target's adjacency
list by `_createAssociations`. -/
def addReverse (am : List (String × List Assoc)) (m : Memory) (assocs : List Assoc) :
    List (String × List Assoc) :=
  assocs.foldl
    (fun acc a =>
      alSet acc a.targetId
        (((alGet acc a.targetId).getD []) ++
          [({ targetId := m.id, strength := a.strength, type := a.type } : Assoc)]))
    am

/-- `_createAssociations`: store the new record's adjacency list and add
the reverse edges. -/
def createAssociations (cfg : MemoryConfig) (b : Bank) (m : Memory) : Bank :=
  { b with
      associations :=
        addReverse
          (alSet b.associations m.id (temporalAssocs cfg b m ++ contextualAssocs b m))
          m (temporalAssocs cfg b m ++ contextualAssocs b m) }

/-- The contextual part of `_updateIndices` (the temporal and importance
indices are never read by a claimed operation). -/
def updateIndices (b : Bank) (m : Memory) : Bank :=
  match m.context with
  | none => b
  | some ctx =>
      { b with
          contextualIndex := ctx.foldl
            (fun idx kv =>
              let key := kv.1 ++ ":" ++ kv.2
              alSet idx key (((alGet idx key).getD []) ++ [m.id]))
            b.contextualIndex }

/-- The first two mutations of `store`: insert the record into its
category map and refresh the working memory. -/
def storeStage2 (cfg : MemoryConfig) (b : Bank) (ownerId freshId : String) (now : ℝ)
    (input : MemoryInput) : Bank :=
  let m := storeRecord cfg ownerId freshId now input
  let b1 := setCat b m.category (alSet (b.memories m.category) m.id m)
  { b1 with workingMemory := updateWorkingMemory b1.workingMemory m }

/-- `store`: build the record, insert it into its category map, refresh
the working memory, create associations, update the indices, and return
the fresh id. -/
def store (cfg : MemoryConfig) (b : Bank) (ownerId freshId : String) (now : ℝ)
    (input : MemoryInput) : String × Bank :=
  let m := storeRecord cfg ownerId freshId now input
  let b3 := createAssociations cfg (storeStage2 cfg b ownerId freshId now input) m
  let b4 := updateIndices b3 m
  (m.id, b4)

/-! ### Forgetting and consolidation -/

/-- The skip guard of `processForgetting`:
`memory.lastAccessed && now - memory.lastAccessed < 60000`
(a `lastAccessed` of 0 is falsy). -/
def recentlyAccessed (m : Memory) (now : ℝ) : Prop :=
  match m.lastAccessed with
  | none => False
  | some t => ¬t = 0 ∧ now - t < 60000

/-- The retention bonus added after decay. -/
def retentionBonus (m : Memory) : ℝ :=
  m.importance * 0.3 + (if m.consolidated then 0.3 else 0) +
    (if 5 < m.accessCount then 0.2 else 0)

/-- The per-record update of `processForgetting`:
`strength = strength * exp(-forgettingRate * age / 1day) + retentionBonus`. -/
def forgetMemory (cfg : MemoryConfig) (now : ℝ) (m : Memory) : Memory :=
  let age := now - m.timestamp
  let decayFactor := Real.exp (-cfg.forgettingRate * age / (24 * 60 * 60 * 1000))
  { m with strength := m.strength * decayFactor + retentionBonus m }

/-- One category map after a forgetting pass: recently accessed records
are kept untouched, the rest are decayed and evicted when the resulting
strength drops below 0.1. -/
def forgetCategory (cfg : MemoryConfig) (now : ℝ) (l : List (String × Memory)) :
    List (String × Memory) :=
  l.filterMap (fun im =>
    if recentlyAccessed im.2 now then some im
    else if (forgetMemory cfg now im.2).strength < 0.1 then none
    else some (im.1, forgetMemory cfg now im.2))

/-- The ids evicted from one category map by the pass. -/
def forgetRemovedIds (cfg : MemoryConfig) (now : ℝ) (l : List (String × Memory)) :
    List String :=
  l.filterMap (fun im =>
    if recentlyAccessed im.2 now then none
    else if (forgetMemory cfg now im.2).strength < 0.1 then some im.1 else none)

/-- `processForgetting`: decay every category map and delete each evicted
record's own adjacency list from the association graph. -/
def processForgetting (cfg : MemoryConfig) (b : Bank) (now : ℝ) : Bank :=
  let removed := categoriesList.foldl
    (fun acc c => acc ++ forgetRemovedIds cfg now (b.memories c)) []
  { b with
      memories := fun c => forgetCategory cfg now (b.memories c)
      associations := removed.foldl (fun am id => alDelete am id) b.associations }

/-- The record part of `consolidate`: early return when already
consolidated, otherwise strengthen, mark, stamp, and (via
`saveToStorage`) mark persisted. -/
def consolidateMemory (m : Memory) (now : ℝ) : Memory :=
  if m.consolidated then m
  else
    { m with
        strength := min 1 (m.strength * 1.5)
        consolidated := true
        consolidatedAt := some now
        persisted := true }

/-- The association part of `consolidate`: scale the record's existing
adjacency list by 1.2, capped at 1 (no-op when already consolidated or
when the record has no adjacency list). -/
def consolidateAssociations (am : List (String × List Assoc)) (m : Memory) :
    List (String × List Assoc) :=
  if m.consolidated then am
  else
    match alGet am m.id with
    | none => am
    | some l =>
        alSet am m.id (l.map (fun a => { a with strength := min 1 (a.strength * 1.2) }))

/-- `consolidate` acting on a record and the association graph. -/
def consolidate (m : Memory) (am : List (String × List Assoc)) (now : ℝ) :
    Memory × List (String × List Assoc) :=
  (consolidateMemory m now, consolidateAssociations am m)

/-! ### Query pipeline -/

structure QueryCriteria where
  type : Option String
  context : Option (List (String × String))
  associatedWith : Option String
  timeRange : Option (ℝ × ℝ)
  search : Option String
  minImportance : Option ℝ
  category : Option MemCategory
  limit : Option ℕ

/-- `_queryByType`. -/
def queryByType (b : Bank) (t : String) : List Memory :=
  (categoriesList.map (fun c =>
    (b.memories c).filterMap (fun im =>
      if im.2.type = some t then some im.2 else none))).flatten

/-- `_queryByAssociation`: resolve the adjacency list, copy each target
with the association metadata, sort by association strength descending. -/
def queryByAssociation (b : Bank) (memoryId : String) : List Memory :=
  let results := ((alGet b.associations memoryId).getD []).filterMap
    (fun a =>
      (getMemoryById b a.targetId).map
        (fun m => { m with
                      associationStrength := some a.strength
                      associationType := some a.type }))
  results.mergeSort (fun m1 m2 =>
    decide ((m2.associationStrength).getD 0 ≤ (m1.associationStrength).getD 0))

/-- `_queryByTimeRange`. -/
def queryByTimeRange (b : Bank) (range : ℝ × ℝ) : List Memory :=
  let results := (categoriesList.map (fun c =>
    (b.memories c).filterMap (fun im =>
      if range.1 ≤ im.2.timestamp ∧ im.2.timestamp ≤ range.2 then some im.2
      else none))).flatten
  results.mergeSort (fun m1 m2 => decide (m2.timestamp ≤ m1.timestamp))

/-- Lower-case a string (`String.prototype.toLowerCase` on the ASCII
content exercised here). -/
def strLower (s : String) : String :=
  String.map Char.toLower s

def isPrefixList : List Char → List Char → Bool
  | [], _ => true
  | _ :: _, [] => false
  | a :: as, b :: bs => a == b && isPrefixList as bs

/-- `String.prototype.includes`. -/
def isInfixList (needle : List Char) : List Char → Bool
  | [] => needle.isEmpty
  | c :: rest => isPrefixList needle (c :: rest) || isInfixList needle rest

def strIncludes (hay needle : String) : Bool :=
  isInfixList needle.data hay.data

/-- The serialized context searched by `_searchMemories`
(`JSON.stringify` is modelled as a `key:value` rendering). -/
def renderContext (ctx : List (String × String)) : String :=
  String.intercalate "," (ctx.map (fun kv => kv.1 ++ ":" ++ kv.2))

/-- The relevance accumulated by `_searchMemories` for one record:
content substring 0.5, type substring 0.3, context substring 0.2. -/
def searchRelevance (m : Memory) (searchLower : String) : ℝ :=
  (match m.content with
    | some s => if strIncludes (strLower s) searchLower then (0.5 : ℝ) else 0
    | none => 0) +
  (match m.type with
    | some t => if strIncludes t searchLower then (0.3 : ℝ) else 0
    | none => 0) +
  (match m.context with
    | some ctx =>
        if strIncludes (strLower (renderContext ctx)) searchLower then (0.2 : ℝ) else 0
    | none => 0)

/-- `_searchMemories`: substring relevance over content (0.5), type (0.3)
and context (0.2); records with positive relevance are copied with their
`relevance` and sorted by it. -/
def searchMemories (b : Bank) (term : String) : List Memory :=
  let results := (categoriesList.map (fun c =>
    (b.memories c).filterMap (fun im =>
      if 0 < searchRelevance im.2 (strLower term) then
        some { im.2 with relevance := some (searchRelevance im.2 (strLower term)) }
      else none))).flatten
  results.mergeSort (fun m1 m2 =>
    decide ((m2.relevance).getD 0 ≤ (m1.relevance).getD 0))

/-- `_rankByRelevance`: copies each record with a relevance score
(`{...memory, relevanceScore}`) and sorts the copies descending.  The
stored records are untouched. -/
def rankByRelevance (now : ℝ) (l : List Memory) : List Memory :=
  let scored := l.map (fun m =>
    let score :=
      Real.exp (-(now - m.timestamp) / (7 * 24 * 60 * 60 * 1000)) +
        m.importance * 2 +
        Real.log (1 + (m.accessCount : ℝ)) * 0.5 +
        (if m.consolidated then 0.5 else 0)
    { m with relevanceScore := some score })
  scored.mergeSort (fun m1 m2 =>
    decide ((m2.relevanceScore).getD 0 ≤ (m1.relevanceScore).getD 0))

/-- `query`: one primary mode, the optional filters, ranking, the limit,
and the access-count bump — which acts on the ranked copies, so the
returned list and the untouched bank are both produced. -/
def query (b : Bank) (now : ℝ) (q : QueryCriteria) : List Memory × Bank :=
  let raw :=
    match q.type with
    | some t => queryByType b t
    | none =>
        match q.context with
        | some ctx => queryByContext b ctx
        | none =>
            match q.associatedWith with
            | some id => queryByAssociation b id
            | none =>
                match q.timeRange with
                | some r => queryByTimeRange b r
                | none =>
                    match q.search with
                    | some s => searchMemories b s
                    | none => []
  let filtered :=
    match q.minImportance with
    | some v => if v = 0 then raw else raw.filter (fun m => decide (v ≤ m.importance))
    | none => raw
  let filtered :=
    match q.category with
    | some c => filtered.filter (fun m => decide (m.category = c))
    | none => filtered
  let ranked := rankByRelevance now filtered
  let limited :=
    match q.limit with
    | some n => if n = 0 then ranked else ranked.take n
    | none => ranked
  let results := limited.map
    (fun m => { m with accessCount := m.accessCount + 1, lastAccessed := some now })
  (results, b)

/-- All `(id, record)` entries held by the bank across the four category
maps. -/
def bankMembers (b : Bank) : List (String × Memory) :=
  (categoriesList.map (fun c => b.memories c)).flatten

/-- Every record held by the bank has nonnegative strength and
importance. -/
def NonnegBank (b : Bank) : Prop :=
  ∀ p ∈ bankMembers b, 0 ≤ p.2.strength ∧ 0 ≤ p.2.importance

/-! ### Concrete instances used by the memory-bank claims -/

/-- An input whose emotional context boosts an importance of 0.8. -/
def inputBoost : MemoryInput :=
  { id := none
    timestamp := some 1000
    strength := none
    importance := 0.8
    accessCount := none
    category := none
    type := some "event"
    content := none
    context := none
    emotionalContext := some [("fear", 1)]
    emotionalImpact := false
    consolidated := false
    consolidatedAt := none
    lastAccessed := none
    persisted := false }

/-- A consolidated, frequently accessed, important record: its retention
bonus is 0.3 + 0.3 + 0.2 = 0.8. -/
def mem1 : Memory :=
  { id := "m1"
    ownerId := "npc"
    timestamp := 1000
    strength := 0.5
    importance := 1
    accessCount := 6
    lastAccessed := none
    consolidated := true
    consolidatedAt := some 900
    persisted := false
    category := .episodic
    type := some "event"
    content := none
    context := none
    emotionalContext := none
    emotionalImpact := false
    relevance := none
    relevanceScore := none
    associationStrength := none
    associationType := none }

def bank1 : Bank :=
  { memories := fun c => if c = MemCategory.episodic then [("m1", mem1)] else []
    workingMemory := [mem1]
    associations := []
    contextualIndex := [] }

def q4 : QueryCriteria :=
  { type := some "event"
    context := none
    associatedWith := none
    timeRange := none
    search := none
    minImportance := none
    category := none
    limit := none }

/-- Configuration with a forgetting rate of 1 (constructor override), so
three days of age decay a record by `exp(-3)`. -/
def cfgF : MemoryConfig :=
  { consolidationThreshold := 0.7
    forgettingRate := 1
    associationStrength := 0.3
    emotionalBoost := 1.5 }

/-- First stored record: importance 1 keeps it alive through the
forgetting pass via the retention bonus. -/
def inputB : MemoryInput :=
  { id := none
    timestamp := some 1000
    strength := none
    importance := 1
    accessCount := none
    category := none
    type := some "event"
    content := none
    context := some [("place", "x")]
    emotionalContext := none
    emotionalImpact := false
    consolidated := false
    consolidatedAt := none
    lastAccessed := none
    persisted := false }

/-- Second stored record: importance 0, so the pass evicts it. -/
def inputA : MemoryInput :=
  { inputB with importance := 0 }

def memB : Memory := storeRecord cfgF "npc" "B" 1000 inputB

def memA : Memory := storeRecord cfgF "npc" "A" 1000 inputA

/-- Bank after storing B into an empty instance. -/
def bankB : Bank := (store cfgF emptyBank "npc" "B" 1000 inputB).2

/-- Bank after additionally storing A, which shares B's context and hence
acquires the mutual contextual association pair. -/
def bankAB : Bank := (store cfgF bankB "npc" "A" 1000 inputA).2

/-- Three days after the two stores. -/
def nowF : ℝ := 1000 + 3 * 86400000

/-- The bank after one forgetting pass three days later. -/
def bankAfter : Bank := processForgetting cfgF bankAB nowF

/-- A one-record bank used to witness the eviction theorem. -/
def bankW : Bank :=
  { memories := fun c => if c = MemCategory.episodic then [("A", memA)] else []
    workingMemory := []
    associations := [("A", [])]
    contextualIndex := [] }

/-! ### Concrete instances used by witnesses and counterexamples -/

def cfg0 : MemoryConfig :=
  { consolidationThreshold := 0.7
    forgettingRate := 0.001
    associationStrength := 0.3
    emotionalBoost := 1.5 }

def input0 : MemoryInput :=
  { id := some "caller-id"
    timestamp := none
    strength := some 0
    importance := 0
    accessCount := some 3
    category := none
    type := some "event"
    content := none
    context := none
    emotionalContext := none
    emotionalImpact := false
    consolidated := false
    consolidatedAt := none
    lastAccessed := none
    persisted := false }

def mem0 : Memory :=
  { id := "m0"
    ownerId := "npc"
    timestamp := 0
    strength := 0.5
    importance := 1
    accessCount := 0
    lastAccessed := none
    consolidated := false
    consolidatedAt := none
    persisted := false
    category := .episodic
    type := some "event"
    content := none
    context := none
    emotionalContext := none
    emotionalImpact := false
    relevance := none
    relevanceScore := none
    associationStrength := none
    associationType := none }

end MemoryBank

/-! ## Helper lemmas about the association-list operations -/

theorem alGet_map_set {α : Type} (l : List (String × α)) (key : String) (v : α)
    (h : l.any (fun p => p.1 == key) = true) :
    alGet (l.map (fun p => if p.1 = key then (key, v) else p)) key = some v := by
  induction l with
  | nil => simp at h
  | cons p rest ih =>
      rw [List.map_cons]
      by_cases hp : p.1 = key
      · rw [if_pos hp]
        simp [alGet]
      · have hrest : rest.any (fun p => p.1 == key) = true := by
          simp only [List.any_cons, Bool.or_eq_true, beq_iff_eq] at h
          rcases h with h | h
          · exact absurd h hp
          · simpa using h
        rw [if_neg hp]
        simp only [alGet]
        rw [if_neg hp]
        exact ih hrest

theorem alGet_map_set_ne {α : Type} (l : List (String × α)) (key k : String) (v : α)
    (h : k ≠ key) :
    alGet (l.map (fun p => if p.1 = key then (key, v) else p)) k = alGet l k := by
  induction l with
  | nil => rfl
  | cons p rest ih =>
      rw [List.map_cons]
      by_cases hp : p.1 = key
      · rw [if_pos hp]
        simp only [alGet]
        rw [if_neg (fun hk => h hk.symm), if_neg (fun hpk : p.1 = k => h (hp ▸ hpk).symm)]
        exact ih
      · rw [if_neg hp]
        simp only [alGet]
        by_cases hpk : p.1 = k
        · rw [if_pos hpk, if_pos hpk]
        · rw [if_neg hpk, if_neg hpk]
          exact ih

theorem alGet_append_single {α : Type} (l : List (String × α)) (key : String) (v : α)
    (h : l.any (fun p => p.1 == key) = false) :
    alGet (l ++ [(key, v)]) key = some v := by
  induction l with
  | nil => simp [alGet]
  | cons p rest ih =>
      simp only [List.any_cons, Bool.or_eq_false_iff, beq_eq_false_iff_ne] at h
      rw [List.cons_append]
      simp only [alGet]
      rw [if_neg h.1]
      exact ih h.2

theorem alGet_append_single_ne {α : Type} (l : List (String × α)) (key k : String) (v : α)
    (h : k ≠ key) : alGet (l ++ [(key, v)]) k = alGet l k := by
  induction l with
  | nil =>
      simp only [List.nil_append, alGet]
      rw [if_neg (fun hk : (key, v).1 = k => h hk.symm)]
  | cons p rest ih =>
      rw [List.cons_append]
      simp only [alGet]
      by_cases hpk : p.1 = k
      · rw [if_pos hpk, if_pos hpk]
      · rw [if_neg hpk, if_neg hpk]
        exact ih

theorem alGet_alSet {α : Type} (l : List (String × α)) (key : String) (v : α) :
    alGet (alSet l key v) key = some v := by
  unfold alSet
  by_cases h : l.any (fun p => p.1 == key) = true
  · rw [if_pos h]
    exact alGet_map_set l key v h
  · rw [if_neg h]
    exact alGet_append_single l key v (by
      simp only [Bool.not_eq_true] at h
      exact h)

theorem alGet_alSet_ne {α : Type} (l : List (String × α)) (key k : String) (v : α)
    (h : k ≠ key) : alGet (alSet l key v) k = alGet l k := by
  unfold alSet
  by_cases hany : l.any (fun p => p.1 == key) = true
  · rw [if_pos hany]
    exact alGet_map_set_ne l key k v h
  · rw [if_neg hany]
    exact alGet_append_single_ne l key k v h

theorem alGet_alDelete_self {α : Type} (l : List (String × α)) (key : String) :
    alGet (alDelete l key) key = none := by
  induction l with
  | nil => rfl
  | cons p rest ih =>
      by_cases hp : p.1 = key
      · have : (p.1 != key) = false := by simp [hp]
        rw [alDelete, List.filter_cons, this]
        exact ih
      · have : (p.1 != key) = true := by simp [hp]
        rw [alDelete, List.filter_cons, this]
        simp only [alGet]
        rw [if_neg hp]
        exact ih

theorem alGet_alDelete_none {α : Type} (l : List (String × α)) (key k : String)
    (h : alGet l k = none) : alGet (alDelete l key) k = none := by
  induction l with
  | nil => rfl
  | cons p rest ih =>
      by_cases hpk : p.1 = k
      · rw [show alGet (p :: rest) k = if p.1 = k then some p.2 else alGet rest k from rfl,
          if_pos hpk] at h
        exact absurd h (by simp)
      · have h' : alGet rest k = none := by
          rwa [show alGet (p :: rest) k = if p.1 = k then some p.2 else alGet rest k from rfl,
            if_neg hpk] at h
        by_cases hp : p.1 = key
        · have : (p.1 != key) = false := by simp [hp]
          rw [alDelete, List.filter_cons, this]
          exact ih h'
        · have : (p.1 != key) = true := by simp [hp]
          rw [alDelete, List.filter_cons, this]
          simp only [alGet]
          rw [if_neg hpk]
          exact ih h'

theorem alGet_foldDelete {α : Type} (ids : List String) (am : List (String × List α))
    (id : String) :
    (id ∈ ids → alGet (ids.foldl (fun acc k => alDelete acc k) am) id = none) ∧
    (alGet am id = none → alGet (ids.foldl (fun acc k => alDelete acc k) am) id = none) := by
  induction ids generalizing am with
  | nil => exact ⟨fun h => absurd h (List.not_mem_nil id), fun h => h⟩
  | cons k rest ih =>
      constructor
      · intro hmem
        rcases List.mem_cons.mp hmem with rfl | hmem
        · exact (ih (alDelete am id)).2 (alGet_alDelete_self am id)
        · exact (ih (alDelete am k)).1 hmem
      · intro hnone
        exact (ih (alDelete am k)).2 (alGet_alDelete_none am k id hnone)

/-! ## C7: consolidation is idempotent -/

/-- C7.  `consolidate` is idempotent: a second application (at any later
time) changes neither the record nor the association state, because the
first application sets `consolidated` and the method returns early on a
consolidated record.  The first application on an unconsolidated record
sets `strength = min(1, strength*1.5)`, marks it consolidated, and scales
its existing adjacency list by 1.2 capped at 1. -/
theorem c7_consolidate_idempotent :
    ∀ (m : Memory) (am : List (String × List Assoc)) (now now' : ℝ),
      (consolidate (consolidate m am now).1 (consolidate m am now).2 now' =
          consolidate m am now) ∧
      (m.consolidated = false →
        (consolidate m am now).1.strength = min 1 (m.strength * 1.5) ∧
        (consolidate m am now).1.consolidated = true ∧
        ∀ l, alGet am m.id = some l →
          alGet (consolidate m am now).2 m.id =
            some (l.map (fun a => { a with strength := min 1 (a.strength * 1.2) }))) := by
  intro m am now now'
  have hmem_done : ∀ (x : Memory) (t : ℝ), x.consolidated = true → consolidateMemory x t = x := by
    intro x t hx
    unfold consolidateMemory
    rw [if_pos hx]
  have hassoc_done : ∀ (amx : List (String × List Assoc)) (x : Memory),
      x.consolidated = true → consolidateAssociations amx x = amx := by
    intro amx x hx
    unfold consolidateAssociations
    rw [if_pos hx]
  have hconsol : (consolidateMemory m now).consolidated = true := by
    unfold consolidateMemory
    cases h : m.consolidated with
    | true => simpa using h
    | false => simp
  constructor
  · have h1 : consolidateMemory (consolidateMemory m now) now' = consolidateMemory m now :=
      hmem_done _ now' hconsol
    have h2 : consolidateAssociations (consolidateAssociations am m) (consolidateMemory m now) =
        consolidateAssociations am m :=
      hassoc_done _ _ hconsol
    show (consolidateMemory (consolidateMemory m now) now',
           consolidateAssociations (consolidateAssociations am m) (consolidateMemory m now)) =
         (consolidateMemory m now, consolidateAssociations am m)
    rw [h1, h2]
  · intro hfalse
    have hneg : ¬(m.consolidated = true) := by simp [hfalse]
    refine ⟨?_, ?_, ?_⟩
    · show (consolidateMemory m now).strength = min 1 (m.strength * 1.5)
      unfold consolidateMemory
      rw [if_neg hneg]
    · exact hconsol
    · intro l hl
      show alGet (consolidateAssociations am m) m.id = _
      unfold consolidateAssociations
      rw [if_neg hneg, hl]
      exact alGet_alSet am m.id _

/-- Witness for C7 at a concrete unconsolidated record with one
association. -/
theorem c7_consolidate_idempotent_witness :
    (consolidate mem0 [("m0", [⟨"m1", 0.5, "contextual"⟩])] 5).1.strength =
        min 1 (mem0.strength * 1.5) ∧
      alGet (consolidate mem0 [("m0", [⟨"m1", 0.5, "contextual"⟩])] 5).2 "m0" =
        some [⟨"m1", min 1 (0.5 * 1.2), "contextual"⟩] := by
  have h := (c7_consolidate_idempotent mem0 [("m0", [⟨"m1", 0.5, "contextual"⟩])] 5 6).2 rfl
  exact ⟨h.1, h.2.2 [⟨"m1", 0.5, "contextual"⟩] rfl⟩

/-! ## C10: store overwrites id, resets accessCount, defaults strength -/

/-- C10.  `store` ignores any caller-supplied `id` and `accessCount`
(overwriting them with the fresh id and 0), replaces a caller-supplied
strength of 0 (falsy under `||`) with the default 0.5, and therefore
never produces a zero-strength record. -/
theorem c10_store_resets_fields :
    ∀ (cfg : MemoryConfig) (ownerId freshId : String) (now : ℝ) (input : MemoryInput),
      (∀ v, storeRecord cfg ownerId freshId now { input with id := v } =
          storeRecord cfg ownerId freshId now input) ∧
      (∀ n, storeRecord cfg ownerId freshId now { input with accessCount := n } =
          storeRecord cfg ownerId freshId now input) ∧
      (storeRecord cfg ownerId freshId now input).id = freshId ∧
      (storeRecord cfg ownerId freshId now input).accessCount = 0 ∧
      (input.strength = some 0 →
        (storeRecord cfg ownerId freshId now input).strength = 0.5) ∧
      (storeRecord cfg ownerId freshId now input).strength ≠ 0 := by
  intro cfg ownerId freshId now input
  refine ⟨fun v => rfl, fun n => rfl, rfl, rfl, ?_, ?_⟩
  · intro h
    show jsOr input.strength 0.5 = 0.5
    rw [h]
    simp [jsOr]
  · show jsOr input.strength 0.5 ≠ 0
    unfold jsOr
    match input.strength with
    | none => norm_num
    | some x =>
        show (if x = 0 then (0.5 : ℝ) else x) ≠ 0
        by_cases hx : x = 0
        · rw [if_pos hx]; norm_num
        · rw [if_neg hx]; exact hx

/-- Witness for C10 at a concrete input carrying a caller id and a zero
strength. -/
theorem c10_store_resets_fields_witness :
    (storeRecord cfg0 "npc" "fresh-1" 7 input0).id = "fresh-1" ∧
      (storeRecord cfg0 "npc" "fresh-1" 7 input0).strength = 0.5 := by
  have h := c10_store_resets_fields cfg0 "npc" "fresh-1" 7 input0
  exact ⟨h.2.2.1, h.2.2.2.2.1 rfl⟩

/-! ## Shared lemmas about the bank state -/

theorem mem_alSet {α : Type} (l : List (String × α)) (key : String) (v : α) (p : String × α)
    (h : p ∈ alSet l key v) : p = (key, v) ∨ p ∈ l := by
  unfold alSet at h
  by_cases hany : l.any (fun q => q.1 == key) = true
  · rw [if_pos hany] at h
    obtain ⟨q, hq, hfq⟩ := List.mem_map.mp h
    by_cases hqk : q.1 = key
    · rw [if_pos hqk] at hfq
      exact Or.inl hfq.symm
    · rw [if_neg hqk] at hfq
      exact Or.inr (hfq ▸ hq)
  · rw [if_neg hany] at h
    rcases List.mem_append.mp h with h | h
    · exact Or.inr h
    · exact Or.inl (List.mem_singleton.mp h)

theorem mem_bankMembers (b : Bank) (p : String × Memory) :
    p ∈ bankMembers b ↔ ∃ c, p ∈ b.memories c := by
  unfold bankMembers
  simp only [List.mem_flatten, List.mem_map]
  constructor
  · rintro ⟨l, ⟨c, hc, rfl⟩, hp⟩
    exact ⟨c, hp⟩
  · rintro ⟨c, hp⟩
    refine ⟨b.memories c, ⟨c, ?_, rfl⟩, hp⟩
    cases c <;> simp [categoriesList]

theorem updateIndices_memories (b : Bank) (m : Memory) :
    (updateIndices b m).memories = b.memories := by
  unfold updateIndices
  cases hctx : m.context <;> simp [hctx]

theorem updateIndices_associations (b : Bank) (m : Memory) :
    (updateIndices b m).associations = b.associations := by
  unfold updateIndices
  cases hctx : m.context <;> simp [hctx]

theorem createAssociations_memories (cfg : MemoryConfig) (b : Bank) (m : Memory) :
    (createAssociations cfg b m).memories = b.memories := rfl

theorem store_memories (cfg : MemoryConfig) (b : Bank) (ownerId freshId : String)
    (now : ℝ) (input : MemoryInput) :
    (store cfg b ownerId freshId now input).2.memories =
      (setCat b (storeRecord cfg ownerId freshId now input).category
        (alSet (b.memories (storeRecord cfg ownerId freshId now input).category)
          freshId (storeRecord cfg ownerId freshId now input))).memories := by
  simp only [store]
  rw [updateIndices_memories, createAssociations_memories]
  rfl

theorem mem_forgetCategory (cfg : MemoryConfig) (now : ℝ) (l : List (String × Memory))
    (p' : String × Memory) (h : p' ∈ forgetCategory cfg now l) :
    ∃ p ∈ l, p'.1 = p.1 ∧ (p'.2 = p.2 ∨ p'.2 = forgetMemory cfg now p.2) := by
  obtain ⟨p, hp, heq⟩ := List.mem_filterMap.mp h
  refine ⟨p, hp, ?_⟩
  split_ifs at heq with hr hev
  · rw [← Option.some.inj heq]
    exact ⟨rfl, Or.inl rfl⟩
  · rw [← Option.some.inj heq]
    exact ⟨rfl, Or.inr rfl⟩

theorem processForgetting_memories (cfg : MemoryConfig) (b : Bank) (now : ℝ)
    (c : MemCategory) :
    (processForgetting cfg b now).memories c = forgetCategory cfg now (b.memories c) := rfl

theorem mem_processForgetting (cfg : MemoryConfig) (b : Bank) (now : ℝ)
    (p' : String × Memory) (h : p' ∈ bankMembers (processForgetting cfg b now)) :
    ∃ p ∈ bankMembers b, p'.1 = p.1 ∧ (p'.2 = p.2 ∨ p'.2 = forgetMemory cfg now p.2) := by
  obtain ⟨c, hc⟩ := (mem_bankMembers _ p').mp h
  rw [processForgetting_memories] at hc
  obtain ⟨p, hp, hrel⟩ := mem_forgetCategory cfg now (b.memories c) p' hc
  exact ⟨p, (mem_bankMembers b p).mpr ⟨c, hp⟩, hrel⟩

theorem emotionalIntensity_nonneg (l : List (String × ℝ)) : 0 ≤ emotionalIntensity l := by
  unfold emotionalIntensity
  split_ifs
  · exact le_refl 0
  · apply div_nonneg
    · apply List.sum_nonneg
      intro x hx
      obtain ⟨kv, _, rfl⟩ := List.mem_map.mp hx
      positivity
    · positivity

theorem retentionBonus_nonneg (m : Memory) (hi : 0 ≤ m.importance) :
    0 ≤ retentionBonus m := by
  unfold retentionBonus
  split_ifs <;> nlinarith

theorem forgetMemory_nonneg (cfg : MemoryConfig) (now : ℝ) (m : Memory)
    (hs : 0 ≤ m.strength) (hi : 0 ≤ m.importance) :
    0 ≤ (forgetMemory cfg now m).strength :=
  add_nonneg (mul_nonneg hs (Real.exp_pos _).le) (retentionBonus_nonneg m hi)

/-! ## C1: strength and importance bounds -/

/-- Counterexample for C1 as frozen: storing a record of importance 0.8
with an emotional context of intensity 1 (boost factor 1.5) leaves a
record of importance 2 > 1 in the bank — the emotional boost is not
clamped. -/
theorem c1_counterexample :
    (alGet ((store cfg0 emptyBank "npc" "mA" 1000 inputBoost).2.memories
        MemCategory.episodic) "mA").map Memory.importance = some 2 ∧
      ¬((2 : ℝ) ≤ 1) := by
  constructor
  · have hrec : (storeRecord cfg0 "npc" "mA" 1000 inputBoost).importance = 2 := by
      show (if inputBoost.emotionalContext.isSome ∧ inputBoost.importance ≠ 0 then
          inputBoost.importance *
            (1 + emotionalIntensity (inputBoost.emotionalContext.getD []) *
              cfg0.emotionalBoost)
        else inputBoost.importance) = 2
      have hcond : inputBoost.emotionalContext.isSome = true ∧ inputBoost.importance ≠ 0 := by
        refine ⟨rfl, ?_⟩
        show (0.8 : ℝ) ≠ 0
        norm_num
      rw [if_pos hcond]
      show (0.8 : ℝ) * (1 + emotionalIntensity [("fear", 1)] * (1.5 : ℝ)) = 2
      rw [show emotionalIntensity [("fear", 1)] = 1 from by norm_num [emotionalIntensity]]
      norm_num
    have hcat : (storeRecord cfg0 "npc" "mA" 1000 inputBoost).category =
        MemCategory.episodic := by
      show categorizeMemory inputBoost = MemCategory.episodic
      simp [categorizeMemory, inputBoost]
    rw [store_memories, hcat]
    simp [setCat, emptyBank, alSet, alGet, hrec]
  · norm_num

/-- C1 (amended).  The lower bound does hold: `store` (for nonnegative
inputs and boost factor), `processForgetting`, `query` and `consolidate`
all keep strength and importance nonnegative — but, per the
counterexample, the upper bound 1 is not maintained by `store` or
`processForgetting`. -/
theorem c1_nonneg_preserved :
    (∀ (cfg : MemoryConfig) (b : Bank) (ownerId freshId : String) (now : ℝ)
        (input : MemoryInput),
        NonnegBank b → 0 ≤ cfg.emotionalBoost →
        (∀ x, input.strength = some x → 0 ≤ x) → 0 ≤ input.importance →
        NonnegBank (store cfg b ownerId freshId now input).2) ∧
    (∀ (cfg : MemoryConfig) (b : Bank) (now : ℝ),
        NonnegBank b → NonnegBank (processForgetting cfg b now)) ∧
    (∀ (b : Bank) (now : ℝ) (q : QueryCriteria),
        NonnegBank b → NonnegBank (query b now q).2) ∧
    (∀ (m : Memory) (now : ℝ), 0 ≤ m.strength →
        0 ≤ (consolidateMemory m now).strength ∧
        (consolidateMemory m now).importance = m.importance) := by
  refine ⟨?_, ?_, ?_, ?_⟩
  · intro cfg b ownerId freshId now input hb hboost hstr himp p hp
    obtain ⟨c, hc⟩ := (mem_bankMembers _ p).mp hp
    rw [store_memories] at hc
    simp only [setCat] at hc
    by_cases hcc : c = (storeRecord cfg ownerId freshId now input).category
    · rw [if_pos hcc] at hc
      rcases mem_alSet _ _ _ _ hc with rfl | hold
      · constructor
        · show 0 ≤ jsOr input.strength 0.5
          unfold jsOr
          cases hx : input.strength with
          | none => show (0 : ℝ) ≤ 0.5; norm_num
          | some x =>
              show 0 ≤ (if x = 0 then (0.5 : ℝ) else x)
              split_ifs
              · norm_num
              · exact hstr x hx
        · show 0 ≤ (storeRecord cfg ownerId freshId now input).importance
          show 0 ≤ (if input.emotionalContext.isSome ∧ input.importance ≠ 0 then
              input.importance *
                (1 + emotionalIntensity (input.emotionalContext.getD []) *
                  cfg.emotionalBoost)
            else input.importance)
          split_ifs
          · have h1 := emotionalIntensity_nonneg (input.emotionalContext.getD [])
            exact mul_nonneg himp (by nlinarith [mul_nonneg h1 hboost])
          · exact himp
      · exact hb p ((mem_bankMembers b p).mpr ⟨_, hold⟩)
    · rw [if_neg hcc] at hc
      exact hb p ((mem_bankMembers b p).mpr ⟨c, hc⟩)
  · intro cfg b now hb p hp
    obtain ⟨q, hq, hkey, hrel⟩ := mem_processForgetting cfg b now p hp
    have hqb := hb q hq
    rcases hrel with h | h
    · rw [h]
      exact hqb
    · rw [h]
      refine ⟨forgetMemory_nonneg cfg now q.2 hqb.1 hqb.2, ?_⟩
      show 0 ≤ q.2.importance
      exact hqb.2
  · intro b now q hb
    exact hb
  · intro m now hs
    unfold consolidateMemory
    split_ifs
    · exact ⟨hs, rfl⟩
    · constructor
      · apply le_min
        · norm_num
        · nlinarith
      · rfl

/-- Witness for C1's amended invariant at a concrete store on the empty
bank. -/
theorem c1_nonneg_preserved_witness :
    NonnegBank (store cfg0 emptyBank "npc" "w1" 5 input0).2 :=
  c1_nonneg_preserved.1 cfg0 emptyBank "npc" "w1" 5 input0
    (by intro p hp; simp [bankMembers, emptyBank, categoriesList] at hp)
    (by norm_num [cfg0])
    (by
      intro x hx
      rw [show input0.strength = some 0 from rfl] at hx
      rw [← Option.some.inj hx])
    (by norm_num [input0])

/-! ## C3: forgetting is not monotone non-increasing in general -/

/-- Counterexample for C3 as frozen: a consolidated record of importance
1 with access count 6 (retention bonus 0.8) and no access in the last 60
seconds has its strength raised by one forgetting pass from 0.5 to
`0.5·exp(0) + 0.8 = 1.3`. -/
theorem c3_counterexample :
    mem1.lastAccessed = none ∧ mem1.strength = 0.5 ∧
      (alGet ((processForgetting cfg0 bank1 1000).memories MemCategory.episodic)
          "m1").map Memory.strength = some 1.3 ∧
      ¬((1.3 : ℝ) ≤ 0.5) := by
  have hb : bank1.memories MemCategory.episodic = [("m1", mem1)] := by simp [bank1]
  have hrec : ¬recentlyAccessed mem1 1000 := by simp [recentlyAccessed, mem1]
  have hstr : (forgetMemory cfg0 1000 mem1).strength = 1.3 := by
    show mem1.strength *
        Real.exp (-cfg0.forgettingRate * (1000 - mem1.timestamp) / (24 * 60 * 60 * 1000)) +
        retentionBonus mem1 = 1.3
    rw [show retentionBonus mem1 = 0.8 from by norm_num [retentionBonus, mem1]]
    norm_num [mem1, cfg0, Real.exp_zero]
  refine ⟨rfl, rfl, ?_, by norm_num⟩
  rw [processForgetting_memories, hb]
  unfold forgetCategory
  rw [List.filterMap_cons]
  rw [if_neg hrec, if_neg (by rw [hstr]; norm_num)]
  simp [alGet, hstr]

/-- C3 (amended).  One forgetting pass is monotone non-increasing on a
record exactly when its retention bonus cannot outweigh the decay: for a
nonnegative forgetting rate, nonnegative age and strength, nonpositive
importance, unconsolidated flag and access count at most 5, the decayed
strength never exceeds the old one; and every record surviving a pass is
either untouched (recently accessed) or set to `forgetMemory` of its old
value. -/
theorem c3_forgetting_monotone_without_bonus :
    (∀ (cfg : MemoryConfig) (now : ℝ) (m : Memory),
        0 ≤ cfg.forgettingRate → m.timestamp ≤ now → 0 ≤ m.strength →
        m.importance ≤ 0 → m.consolidated = false → m.accessCount ≤ 5 →
        (forgetMemory cfg now m).strength ≤ m.strength) ∧
    (∀ (cfg : MemoryConfig) (b : Bank) (now : ℝ) (p' : String × Memory),
        p' ∈ bankMembers (processForgetting cfg b now) →
        ∃ p ∈ bankMembers b, p'.1 = p.1 ∧
          (p'.2 = p.2 ∨ p'.2 = forgetMemory cfg now p.2)) := by
  constructor
  · intro cfg now m hrate hage hs himp hcons hacc
    show m.strength *
        Real.exp (-cfg.forgettingRate * (now - m.timestamp) / (24 * 60 * 60 * 1000)) +
        retentionBonus m ≤ m.strength
    have hbonus : retentionBonus m ≤ 0 := by
      unfold retentionBonus
      rw [if_neg (by simp [hcons]), if_neg (by omega)]
      nlinarith
    have hexp : Real.exp (-cfg.forgettingRate * (now - m.timestamp) /
        (24 * 60 * 60 * 1000)) ≤ 1 := by
      rw [Real.exp_le_one_iff]
      have h1 : 0 ≤ cfg.forgettingRate * (now - m.timestamp) :=
        mul_nonneg hrate (by linarith)
      nlinarith
    have hs' := mul_le_of_le_one_right hs hexp
    linarith
  · intro cfg b now p' h
    exact mem_processForgetting cfg b now p' h

/-- Witness for C3's amended monotonicity at the concrete zero-bonus
record `memA` three days after storage. -/
theorem c3_forgetting_monotone_without_bonus_witness :
    (forgetMemory cfgF nowF memA).strength ≤ memA.strength :=
  c3_forgetting_monotone_without_bonus.1 cfgF nowF memA
    (by norm_num [cfgF])
    (by
      show jsOr (some 1000) 1000 ≤ nowF
      norm_num [jsOr, nowF])
    (by
      show (0 : ℝ) ≤ jsOr none 0.5
      norm_num [jsOr])
    (by
      show (if inputA.emotionalContext.isSome ∧ inputA.importance ≠ 0 then
          inputA.importance *
            (1 + emotionalIntensity (inputA.emotionalContext.getD []) * cfgF.emotionalBoost)
        else inputA.importance) ≤ 0
      norm_num [inputA, inputB])
    rfl
    (by show (0 : ℕ) ≤ 5; norm_num)

/-! ## C4: query returns bumped copies and leaves the store untouched -/

theorem alGet_mem {α : Type} (l : List (String × α)) (k : String) (v : α)
    (h : alGet l k = some v) : (k, v) ∈ l := by
  induction l with
  | nil => simp [alGet] at h
  | cons p rest ih =>
      rw [show alGet (p :: rest) k = if p.1 = k then some p.2 else alGet rest k from rfl] at h
      split_ifs at h with hp
      · have hv := Option.some.inj h
        subst hp
        subst hv
        rw [Prod.mk.eta]
        exact List.mem_cons_self p rest
      · exact List.mem_cons_of_mem p (ih h)

theorem dedupeById_sub (l : List Memory) (seen : List String) (m : Memory)
    (h : m ∈ dedupeById l seen) : m ∈ l := by
  induction l generalizing seen with
  | nil => simp [dedupeById] at h
  | cons x rest ih =>
      unfold dedupeById at h
      split_ifs at h with hx
      · exact List.mem_cons_of_mem x (ih _ h)
      · rcases List.mem_cons.mp h with rfl | hm
        · exact List.mem_cons_self _ _
        · exact List.mem_cons_of_mem x (ih _ hm)

theorem getMemoryById_mem (b : Bank) (i : String) (m : Memory)
    (h : getMemoryById b i = some m) : ∃ p ∈ bankMembers b, p.1 = i ∧ p.2 = m := by
  unfold getMemoryById at h
  have hm : m ∈ categoriesList.filterMap (fun c => alGet (b.memories c) i) :=
    List.mem_of_mem_head? (by simp [Option.mem_def, h])
  obtain ⟨c, _, hget⟩ := List.mem_filterMap.mp hm
  exact ⟨(i, m), (mem_bankMembers b _).mpr ⟨c, alGet_mem _ _ _ hget⟩, rfl, rfl⟩

theorem queryByType_traces (b : Bank) (t : String) :
    ∀ m ∈ queryByType b t,
      ∃ p ∈ bankMembers b, p.2.id = m.id ∧ p.2.accessCount = m.accessCount := by
  intro m hm
  unfold queryByType at hm
  obtain ⟨l, hl, hml⟩ := List.mem_flatten.mp hm
  obtain ⟨c, _, rfl⟩ := List.mem_map.mp hl
  obtain ⟨p, hp, heq⟩ := List.mem_filterMap.mp hml
  split_ifs at heq
  rw [← Option.some.inj heq]
  exact ⟨p, (mem_bankMembers b p).mpr ⟨c, hp⟩, rfl, rfl⟩

theorem queryByContext_traces (b : Bank) (ctx : List (String × String)) :
    ∀ m ∈ queryByContext b ctx,
      ∃ p ∈ bankMembers b, p.2.id = m.id ∧ p.2.accessCount = m.accessCount := by
  intro m hm
  unfold queryByContext at hm
  have hm' := dedupeById_sub _ _ _ hm
  obtain ⟨i, _, hget⟩ := List.mem_filterMap.mp hm'
  obtain ⟨p, hp, _, rfl⟩ := getMemoryById_mem b i m hget
  exact ⟨p, hp, rfl, rfl⟩

theorem queryByAssociation_traces (b : Bank) (i : String) :
    ∀ m ∈ queryByAssociation b i,
      ∃ p ∈ bankMembers b, p.2.id = m.id ∧ p.2.accessCount = m.accessCount := by
  intro m hm
  unfold queryByAssociation at hm
  have hm' := List.mem_mergeSort.mp hm
  obtain ⟨a, _, heq⟩ := List.mem_filterMap.mp hm'
  obtain ⟨m0, hget, hf⟩ := Option.map_eq_some'.mp heq
  obtain ⟨p, hp, _, rfl⟩ := getMemoryById_mem b a.targetId m0 hget
  rw [← hf]
  exact ⟨p, hp, rfl, rfl⟩

theorem queryByTimeRange_traces (b : Bank) (r : ℝ × ℝ) :
    ∀ m ∈ queryByTimeRange b r,
      ∃ p ∈ bankMembers b, p.2.id = m.id ∧ p.2.accessCount = m.accessCount := by
  intro m hm
  unfold queryByTimeRange at hm
  have hm' := List.mem_mergeSort.mp hm
  obtain ⟨l, hl, hml⟩ := List.mem_flatten.mp hm'
  obtain ⟨c, _, rfl⟩ := List.mem_map.mp hl
  obtain ⟨p, hp, heq⟩ := List.mem_filterMap.mp hml
  split_ifs at heq
  rw [← Option.some.inj heq]
  exact ⟨p, (mem_bankMembers b p).mpr ⟨c, hp⟩, rfl, rfl⟩

theorem searchMemories_traces (b : Bank) (term : String) :
    ∀ m ∈ searchMemories b term,
      ∃ p ∈ bankMembers b, p.2.id = m.id ∧ p.2.accessCount = m.accessCount := by
  intro m hm
  unfold searchMemories at hm
  have hm' := List.mem_mergeSort.mp hm
  obtain ⟨l, hl, hml⟩ := List.mem_flatten.mp hm'
  obtain ⟨c, _, rfl⟩ := List.mem_map.mp hl
  obtain ⟨p, hp, heq⟩ := List.mem_filterMap.mp hml
  split_ifs at heq
  rw [← Option.some.inj heq]
  exact ⟨p, (mem_bankMembers b p).mpr ⟨c, hp⟩, rfl, rfl⟩

theorem rankByRelevance_traces (now : ℝ) (l : List Memory) :
    ∀ m ∈ rankByRelevance now l,
      ∃ m2 ∈ l, m2.id = m.id ∧ m2.accessCount = m.accessCount := by
  intro m hm
  unfold rankByRelevance at hm
  have hm' := List.mem_mergeSort.mp hm
  obtain ⟨m2, hm2, hf⟩ := List.mem_map.mp hm'
  rw [← hf]
  exact ⟨m2, hm2, rfl, rfl⟩

/-- C4 (amended).  `query` never mutates any stored record — the bank
state after a query is the bank state before, because the access-count
bump runs over the ranked copies built by `_rankByRelevance` — and every
returned record is a copy of a stored record (same id) with
`accessCount` one larger than the stored one and `lastAccessed` set to
the query time. -/
theorem c4_query_returns_bumped_copies :
    ∀ (b : Bank) (now : ℝ) (q : QueryCriteria),
      (query b now q).2 = b ∧
      ∀ m ∈ (query b now q).1,
        m.lastAccessed = some now ∧
        ∃ p ∈ bankMembers b, p.2.id = m.id ∧ m.accessCount = p.2.accessCount + 1 := by
  intro b now q
  refine ⟨rfl, ?_⟩
  intro m hm
  simp only [query] at hm
  obtain ⟨m1, hm1, rfl⟩ := List.mem_map.mp hm
  refine ⟨rfl, ?_⟩
  have hranked : ∃ m2, m2 ∈ rankByRelevance now
      (match q.category with
        | some c =>
            (match q.minImportance with
              | some v =>
                  if v = 0 then
                    (match q.type with
                      | some t => queryByType b t
                      | none =>
                          match q.context with
                          | some ctx => queryByContext b ctx
                          | none =>
                              match q.associatedWith with
                              | some i => queryByAssociation b i
                              | none =>
                                  match q.timeRange with
                                  | some r => queryByTimeRange b r
                                  | none =>
                                      match q.search with
                                      | some s => searchMemories b s
                                      | none => [])
                  else
                    (match q.type with
                      | some t => queryByType b t
                      | none =>
                          match q.context with
                          | some ctx => queryByContext b ctx
                          | none =>
                              match q.associatedWith with
                              | some i => queryByAssociation b i
                              | none =>
                                  match q.timeRange with
                                  | some r => queryByTimeRange b r
                                  | none =>
                                      match q.search with
                                      | some s => searchMemories b s
                                      | none => []).filter
                      (fun x => decide (v ≤ x.importance))
              | none =>
                  match q.type with
                  | some t => queryByType b t
                  | none =>
                      match q.context with
                      | some ctx => queryByContext b ctx
                      | none =>
                          match q.associatedWith with
                          | some i => queryByAssociation b i
                          | none =>
                              match q.timeRange with
                              | some r => queryByTimeRange b r
                              | none =>
                                  match q.search with
                                  | some s => searchMemories b s
                                  | none => []).filter
              (fun x => decide (x.category = c))
        | none =>
            match q.minImportance with
            | some v =>
                if v = 0 then
                  (match q.type with
                    | some t => queryByType b t
                    | none =>
                        match q.context with
                        | some ctx => queryByContext b ctx
                        | none =>
                            match q.associatedWith with
                            | some i => queryByAssociation b i
                            | none =>
                                match q.timeRange with
                                | some r => queryByTimeRange b r
                                | none =>
                                    match q.search with
                                    | some s => searchMemories b s
                                    | none => [])
                else
                  (match q.type with
                    | some t => queryByType b t
                    | none =>
                        match q.context with
                        | some ctx => queryByContext b ctx
                        | none =>
                            match q.associatedWith with
                            | some i => queryByAssociation b i
                            | none =>
                                match q.timeRange with
                                | some r => queryByTimeRange b r
                                | none =>
                                    match q.search with
                                    | some s => searchMemories b s
                                    | none => []).filter
                    (fun x => decide (v ≤ x.importance))
            | none =>
                match q.type with
                | some t => queryByType b t
                | none =>
                    match q.context with
                    | some ctx => queryByContext b ctx
                    | none =>
                        match q.associatedWith with
                        | some i => queryByAssociation b i
                        | none =>
                            match q.timeRange with
                            | some r => queryByTimeRange b r
                            | none =>
                                match q.search with
                                | some s => searchMemories b s
                                | none => []) ∧ m2 = m1 := by
    cases hlim : q.limit with
    | none =>
        simp only [hlim] at hm1
        exact ⟨m1, hm1, rfl⟩
    | some n =>
        simp only [hlim] at hm1
        split_ifs at hm1
        · exact ⟨m1, hm1, rfl⟩
        · exact ⟨m1, List.mem_of_mem_take hm1, rfl⟩
  obtain ⟨m2, hm2, rfl⟩ := hranked
  obtain ⟨m3, hm3, hid3, hcount3⟩ := rankByRelevance_traces now _ m2 hm2
  have hraw : ∃ m4, m4 ∈ (match q.type with
      | some t => queryByType b t
      | none =>
          match q.context with
          | some ctx => queryByContext b ctx
          | none =>
              match q.associatedWith with
              | some i => queryByAssociation b i
              | none =>
                  match q.timeRange with
                  | some r => queryByTimeRange b r
                  | none =>
                      match q.search with
                      | some s => searchMemories b s
                      | none => []) ∧ m4 = m3 := by
    rcases hqcat : q.category with _ | c
    · simp only [hqcat] at hm3
      rcases hqmin : q.minImportance with _ | v
      · simp only [hqmin] at hm3
        exact ⟨m3, hm3, rfl⟩
      · simp only [hqmin] at hm3
        split_ifs at hm3
        · exact ⟨m3, hm3, rfl⟩
        · exact ⟨m3, (List.mem_filter.mp hm3).1, rfl⟩
    · simp only [hqcat] at hm3
      have hm3' := (List.mem_filter.mp hm3).1
      rcases hqmin : q.minImportance with _ | v
      · simp only [hqmin] at hm3'
        exact ⟨m3, hm3', rfl⟩
      · simp only [hqmin] at hm3'
        split_ifs at hm3'
        · exact ⟨m3, hm3', rfl⟩
        · exact ⟨m3, (List.mem_filter.mp hm3').1, rfl⟩
  obtain ⟨m4, hm4, rfl⟩ := hraw
  have htrace : ∃ p ∈ bankMembers b, p.2.id = m4.id ∧ p.2.accessCount = m4.accessCount := by
    rcases hqt : q.type with _ | t
    all_goals simp only [hqt] at hm4
    case some => exact queryByType_traces b t m4 hm4
    rcases hqc : q.context with _ | ctx
    all_goals simp only [hqc] at hm4
    case some => exact queryByContext_traces b ctx m4 hm4
    rcases hqa : q.associatedWith with _ | i
    all_goals simp only [hqa] at hm4
    case some => exact queryByAssociation_traces b i m4 hm4
    rcases hqr : q.timeRange with _ | r
    all_goals simp only [hqr] at hm4
    case some => exact queryByTimeRange_traces b r m4 hm4
    rcases hqs : q.search with _ | s
    all_goals simp only [hqs] at hm4
    case some => exact searchMemories_traces b s m4 hm4
    simp at hm4
  obtain ⟨p, hp, hid, hcount⟩ := htrace
  refine ⟨p, hp, ?_, ?_⟩
  · rw [hid, hid3]
  · show m2.accessCount + 1 = p.2.accessCount + 1
    rw [hcount, hcount3]

/-- Counterexample for C4 as frozen: querying `bank1` by type returns the
record with `accessCount` bumped to 7, while the record in the store
still has `accessCount` 6 — the store is not mutated. -/
theorem c4_counterexample :
    (query bank1 1000 q4).2 = bank1 ∧
      ((query bank1 1000 q4).1.map (fun m => (m.id, m.accessCount))) = [("m1", 7)] ∧
      (alGet ((query bank1 1000 q4).2.memories MemCategory.episodic) "m1").map
          Memory.accessCount = some 6 ∧
      (6 : ℕ) ≠ 7 := by
  refine ⟨rfl, ?_, ?_, by norm_num⟩
  · have hraw : queryByType bank1 "event" = [mem1] := by
      unfold queryByType
      simp [bank1, categoriesList, mem1]
    show ((rankByRelevance 1000 (queryByType bank1 "event")).map
        (fun m => { m with accessCount := m.accessCount + 1, lastAccessed := some (1000 : ℝ) })).map
        (fun m => (m.id, m.accessCount)) = [("m1", 7)]
    rw [hraw]
    unfold rankByRelevance
    simp [List.mergeSort_singleton, mem1]
  · have hb : bank1.memories MemCategory.episodic = [("m1", mem1)] := by simp [bank1]
    show (alGet (bank1.memories MemCategory.episodic) "m1").map Memory.accessCount = some 6
    rw [hb]
    simp [alGet, mem1]

/-- Witness for C4, applying the theorem at the concrete bank and query:
the bank is unchanged by the query. -/
theorem c4_query_returns_bumped_copies_witness :
    (query bank1 1000 q4).2 = bank1 :=
  (c4_query_returns_bumped_copies bank1 1000 q4).1

/-! ## C6: focus-switching inertia -/

/-- C6.  With a current focus, a switch happens exactly when the new top
weight exceeds the decayed focus strength times
`1 + distractionResistance`; in the concrete scenario (weight 0.8,
resistance 0.5, no decay time elapsed) a 0.9 challenger does not switch
and a 1.3 challenger does. -/
theorem c6_focus_inertia :
    (∀ (inst : AttnInstance) (now : ℝ) (s : Attended) (f : Attended),
        inst.currentFocus = some f →
        (shouldSwitchFocus inst now s ↔
          s.attentionWeight >
            calculateFocusStrength inst now * (1 + inst.distractionResistance))) ∧
    ¬shouldSwitchFocus attn0 2000 ⟨0.9⟩ ∧
    shouldSwitchFocus attn0 2000 ⟨1.3⟩ := by
  have hstr : calculateFocusStrength attn0 2000 = 0.8 := by
    simp only [calculateFocusStrength, attn0]
    norm_num [List.getLast?, Real.exp_zero]
  have hgen : ∀ (inst : AttnInstance) (now : ℝ) (s : Attended) (f : Attended),
      inst.currentFocus = some f →
      (shouldSwitchFocus inst now s ↔
        s.attentionWeight >
          calculateFocusStrength inst now * (1 + inst.distractionResistance)) := by
    intro inst now s f hf
    simp [shouldSwitchFocus, hf]
  refine ⟨hgen, ?_, ?_⟩
  · rw [hgen attn0 2000 ⟨0.9⟩ ⟨0.8⟩ rfl, hstr]
    norm_num [attn0]
  · rw [hgen attn0 2000 ⟨1.3⟩ ⟨0.8⟩ rfl, hstr]
    norm_num [attn0]

/-- Witness for C6, applying the general rule at the concrete instance. -/
theorem c6_focus_inertia_witness :
    shouldSwitchFocus attn0 2000 ⟨1.3⟩ ↔
      (1.3 : ℝ) > calculateFocusStrength attn0 2000 * (1 + attn0.distractionResistance) :=
  c6_focus_inertia.1 attn0 2000 ⟨1.3⟩ ⟨0.8⟩ rfl

/-! ## C9: the novelty feature -/

theorem foldl_min_one_sub (f : AStimulus → ℚ) (buf : List AStimulus) :
    ∀ (a b : ℚ), a = 1 - b →
      buf.foldl (fun n p => min n (1 - f p)) a =
        1 - buf.foldl (fun m p => max m (f p)) b := by
  induction buf with
  | nil => intro a b h; simpa using h
  | cons p rest ih =>
      intro a b h
      simp only [List.foldl_cons]
      apply ih
      rw [h]
      rcases le_total b (f p) with hle | hle
      · rw [max_eq_right hle, min_eq_right (by linarith)]
      · rw [max_eq_left hle, min_eq_left (by linarith)]

/-- C9 (amended).  For a present stimulus and context the novelty feature
equals `1 - maxSimilarity` over the context buffer; on an empty buffer it
equals 1 (not 0.5); the value 0.5 is returned exactly when the stimulus
or the context argument is missing. -/
theorem c9_novelty_formula :
    (∀ (s : AStimulus) (c : AContext) (buf : List AStimulus),
        calculateNovelty (some s) (some c) buf = 1 - maxSimilarity s buf) ∧
    (∀ (s : AStimulus) (c : AContext), calculateNovelty (some s) (some c) [] = 1) ∧
    (∀ (c : Option AContext) (buf : List AStimulus),
        calculateNovelty none c buf = 0.5) ∧
    (∀ (s : Option AStimulus) (buf : List AStimulus),
        calculateNovelty s none buf = 0.5) := by
  refine ⟨?_, ?_, ?_, ?_⟩
  · intro s c buf
    show buf.foldl (fun n p => min n (1 - attSimilarity s p)) 1 = 1 - maxSimilarity s buf
    exact foldl_min_one_sub (attSimilarity s) buf 1 0 (by norm_num)
  · intro s c
    rfl
  · intro c buf
    cases c with
    | none => rfl
    | some c => rfl
  · intro s buf
    cases s with
    | none => rfl
    | some s => rfl

/-- Counterexample for C9 as frozen: on an empty context buffer the
novelty of a well-formed stimulus/context pair is 1, not 0.5. -/
theorem c9_counterexample :
    calculateNovelty (some stim0) (some actx0) [] = 1 ∧ (1 : ℚ) ≠ 0.5 := by
  constructor
  · rfl
  · norm_num

/-! ## C5: novel and habit-forming pattern variants -/

/-- C5.  The first occurrence of a pattern key emits a `novel` variant
(strength scaled by the creativity factor, outcomes extended with
`surprising_behavior`) and registers the key with count 1; when the key
has been seen 9 times, the next (10th) occurrence emits a
`habit_forming` variant (strength scaled by 0.8, outcomes extended with
`habit_formation`) — not a second `novel` one — and the count becomes
10. -/
theorem c5_novel_then_habit :
    ∀ (cf now : ℚ) (reg : List (String × PatternRecord)) (p : EPattern),
      (alGet reg (getPatternKey p) = none →
        detectNovelStep cf now reg p =
          (some { p with
                    type := "novel"
                    rules := List.insertionSort (· ≤ ·) p.rules
                    strength := p.strength * cf
                    outcomes := p.outcomes ++ ["surprising_behavior"] },
           alSet reg (getPatternKey p) ⟨1, now⟩)) ∧
      (∀ r : PatternRecord, alGet reg (getPatternKey p) = some r → r.count = 9 →
        (detectNovelStep cf now reg p).1 =
            some { p with
                     type := "habit_forming"
                     rules := List.insertionSort (· ≤ ·) p.rules
                     strength := p.strength * 0.8
                     outcomes := p.outcomes ++ ["habit_formation"] } ∧
          alGet (detectNovelStep cf now reg p).2 (getPatternKey p) =
            some ⟨10, r.firstSeen⟩) := by
  intro cf now reg p
  constructor
  · intro h
    simp only [detectNovelStep, h]
  · intro r h hcount
    simp only [detectNovelStep, h, hcount]
    norm_num
    exact alGet_alSet reg (getPatternKey p) ⟨10, r.firstSeen⟩

/-- Witness for C5: a fresh registry yields the `novel` variant, a
registry at count 9 yields the `habit_forming` variant. -/
theorem c5_novel_then_habit_witness :
    (detectNovelStep 0.6 5 [] p0).1 =
        some { p0 with
                 type := "novel"
                 rules := List.insertionSort (· ≤ ·) p0.rules
                 strength := p0.strength * 0.6
                 outcomes := p0.outcomes ++ ["surprising_behavior"] } ∧
      (detectNovelStep 0.6 5 reg9 p0).1 =
        some { p0 with
                 type := "habit_forming"
                 rules := List.insertionSort (· ≤ ·) p0.rules
                 strength := p0.strength * 0.8
                 outcomes := p0.outcomes ++ ["habit_formation"] } := by
  have h1 := (c5_novel_then_habit 0.6 5 [] p0).1 rfl
  have h2 := (c5_novel_then_habit 0.6 5 reg9 p0).2 ⟨9, 0⟩ (by rfl) rfl
  exact ⟨by rw [h1], h2.1⟩

/-! ## C2: flee is never emitted when threat is zero -/

theorem generate_no_flee (o : EmOracle) (p : EPattern) (ctx : EmContext)
    (b : EmBehavior) (hthreat : ctx.threat = 0)
    (h : generateEmergentBehavior o p ctx = some b) : b.action ≠ "flee" := by
  intro hact
  simp only [generateEmergentBehavior] at h
  split_ifs at h with hs
  have hb := Option.some.inj h
  subst hb
  apply hs
  unfold shouldSuppress
  simp [hthreat]
  exact hact

theorem combination_no_flee (b1 b2 b : EmBehavior)
    (h : analyzeBehaviorCombination b1 b2 = some b) : b.action ≠ "flee" := by
  simp only [analyzeBehaviorCombination] at h
  split_ifs at h
  · rw [← Option.some.inj h]
    show "artistic_expression" ≠ "flee"
    decide
  · rw [← Option.some.inj h]
    show "playful_prank" ≠ "flee"
    decide
  · rw [← Option.some.inj h]
    show "deep_inquiry" ≠ "flee"
    decide

theorem sequence_no_flee (bs : List EmBehavior) (b : EmBehavior)
    (h : analyzeSequence bs = some b) : b.action ≠ "flee" := by
  simp only [analyzeSequence] at h
  split_ifs at h
  rw [← Option.some.inj h]
  show "complex_plan" ≠ "flee"
  decide

theorem meta_no_flee (bs : List EmBehavior) (b : EmBehavior)
    (h : b ∈ checkMetaEmergence bs) : b.action ≠ "flee" := by
  unfold checkMetaEmergence at h
  split_ifs at h with h2 h3
  · rcases List.mem_append.mp h with hl | hr
    · obtain ⟨pr, _, hpr⟩ := List.mem_filterMap.mp hl
      exact combination_no_flee pr.1 pr.2 b hpr
    · have hseq : analyzeSequence bs = some b := by
        simpa [Option.mem_toList, Option.mem_def] using hr
      exact sequence_no_flee bs b hseq
  · rcases List.mem_append.mp h with hl | hr
    · obtain ⟨pr, _, hpr⟩ := List.mem_filterMap.mp hl
      exact combination_no_flee pr.1 pr.2 b hpr
    · simp at hr
  · simp at h

/-- C2.  Across arbitrarily many `checkEmergence` calls, whenever the
assembled context has `threat == 0`, no returned behavior — generated or
meta-emergent — has the action `flee`: generation suppresses it by
returning null, and the meta tables only produce other actions. -/
theorem c2_flee_never_emitted_without_threat :
    ∀ (threshold : ℚ) (o : EmOracle) (calls : List (List EPattern × EmContext)),
      (∀ c ∈ calls, c.2.threat = 0) →
      ∀ b ∈ runEmergence threshold o calls, b.action ≠ "flee" := by
  intro threshold o calls hthreat b hb
  unfold runEmergence at hb
  obtain ⟨l, hl, hbl⟩ := List.mem_flatten.mp hb
  obtain ⟨c, hc, rfl⟩ := List.mem_map.mp hl
  have hct : c.2.threat = 0 := hthreat c hc
  simp only [checkEmergence] at hbl
  rcases List.mem_append.mp hbl with hgen | hmeta
  · obtain ⟨p, _, hp⟩ := List.mem_filterMap.mp hgen
    by_cases hth : threshold < p.strength
    · rw [if_pos hth] at hp
      exact generate_no_flee o p c.2 b hct hp
    · rw [if_neg hth] at hp
      exact absurd hp (by simp)
  · exact meta_no_flee _ b hmeta

/-- Witness for C2 at a concrete call trace with zero threat and a firing
pattern. -/
theorem c2_flee_never_emitted_without_threat_witness :
    (runEmergence 0.7 oracle0 calls0).all (fun b => b.action != "flee") = true := by
  refine List.all_eq_true.mpr (fun b hb => ?_)
  have h := c2_flee_never_emitted_without_threat 0.7 oracle0 calls0
    (by
      intro c hc
      simp only [calls0, List.mem_singleton] at hc
      subst hc
      rfl) b hb
  simpa using h


/-! ## C8: eviction removes the record and its own adjacency list, but
reverse edges in other records' lists survive -/

theorem exp_three_gt_five : (5 : ℝ) < Real.exp 3 := by
  have h1 : (2 : ℝ) < Real.exp 1 := lt_trans (by norm_num) Real.exp_one_gt_d9
  have h3 : Real.exp 3 = Real.exp 1 * Real.exp 1 * Real.exp 1 := by
    rw [show (3 : ℝ) = 1 + 1 + 1 by norm_num, Real.exp_add, Real.exp_add]
  nlinarith [Real.exp_pos 1]

theorem exp_neg_three_lt : Real.exp (-3) < 0.2 := by
  have hinv : Real.exp (-3) * Real.exp 3 = 1 := by
    rw [← Real.exp_add]
    norm_num
  nlinarith [mul_pos (sub_pos.mpr exp_three_gt_five) (Real.exp_pos (-3))]

theorem storeRecord_importance_of_no_emotion (cfg : MemoryConfig) (ownerId freshId : String)
    (now : ℝ) (input : MemoryInput) (h : input.emotionalContext = none) :
    (storeRecord cfg ownerId freshId now input).importance = input.importance := by
  show (if input.emotionalContext.isSome ∧ input.importance ≠ 0 then
      input.importance *
        (1 + emotionalIntensity (input.emotionalContext.getD []) * cfg.emotionalBoost)
    else input.importance) = input.importance
  rw [if_neg]
  rintro ⟨h1, -⟩
  rw [h] at h1
  simp at h1

theorem memB_timestamp : memB.timestamp = 1000 := by
  show jsOr (some 1000) 1000 = 1000
  show (if (1000 : ℝ) = 0 then (1000 : ℝ) else 1000) = 1000
  split_ifs <;> rfl

theorem memA_timestamp : memA.timestamp = 1000 := by
  show jsOr (some 1000) 1000 = 1000
  show (if (1000 : ℝ) = 0 then (1000 : ℝ) else 1000) = 1000
  split_ifs <;> rfl

theorem memB_importance : memB.importance = 1 := by
  rw [show memB = storeRecord cfgF "npc" "B" 1000 inputB from rfl,
    storeRecord_importance_of_no_emotion cfgF "npc" "B" 1000 inputB rfl]
  rfl

theorem memA_importance : memA.importance = 0 := by
  rw [show memA = storeRecord cfgF "npc" "A" 1000 inputA from rfl,
    storeRecord_importance_of_no_emotion cfgF "npc" "A" 1000 inputA rfl]
  rfl

theorem memB_bonus : retentionBonus memB = 0.3 := by
  unfold retentionBonus
  rw [memB_importance]
  rw [show memB.consolidated = false from rfl, show memB.accessCount = 0 from rfl]
  norm_num

theorem memA_bonus : retentionBonus memA = 0 := by
  unfold retentionBonus
  rw [memA_importance]
  rw [show memA.consolidated = false from rfl, show memA.accessCount = 0 from rfl]
  norm_num

theorem memB_forget_strength :
    (forgetMemory cfgF nowF memB).strength = 0.5 * Real.exp (-3) + 0.3 := by
  show memB.strength *
      Real.exp (-cfgF.forgettingRate * (nowF - memB.timestamp) / (24 * 60 * 60 * 1000)) +
      retentionBonus memB = _
  rw [memB_timestamp, memB_bonus, show memB.strength = 0.5 from rfl]
  norm_num [cfgF, nowF]

theorem memA_forget_strength :
    (forgetMemory cfgF nowF memA).strength = 0.5 * Real.exp (-3) := by
  show memA.strength *
      Real.exp (-cfgF.forgettingRate * (nowF - memA.timestamp) / (24 * 60 * 60 * 1000)) +
      retentionBonus memA = _
  rw [memA_timestamp, memA_bonus, show memA.strength = 0.5 from rfl]
  norm_num [cfgF, nowF]

theorem memB_not_recent : ¬recentlyAccessed memB nowF := by
  simp [recentlyAccessed, show memB.lastAccessed = none from rfl]

theorem memA_not_recent : ¬recentlyAccessed memA nowF := by
  simp [recentlyAccessed, show memA.lastAccessed = none from rfl]

theorem memB_kept : ¬((forgetMemory cfgF nowF memB).strength < 0.1) := by
  rw [memB_forget_strength]
  push_neg
  nlinarith [Real.exp_pos (-3)]

theorem memA_evicted : (forgetMemory cfgF nowF memA).strength < 0.1 := by
  rw [memA_forget_strength]
  nlinarith [exp_neg_three_lt, Real.exp_pos (-3)]

theorem bankAB_epi : bankAB.memories MemCategory.episodic = [("B", memB), ("A", memA)] := by
  rw [show bankAB = (store cfgF bankB "npc" "A" 1000 inputA).2 from rfl, store_memories]
  rfl

theorem bankAB_sem : bankAB.memories MemCategory.semantic = [] := by
  rw [show bankAB = (store cfgF bankB "npc" "A" 1000 inputA).2 from rfl, store_memories]
  rfl

theorem bankAB_proc : bankAB.memories MemCategory.procedural = [] := by
  rw [show bankAB = (store cfgF bankB "npc" "A" 1000 inputA).2 from rfl, store_memories]
  rfl

theorem bankAB_emo : bankAB.memories MemCategory.emotional = [] := by
  rw [show bankAB = (store cfgF bankB "npc" "A" 1000 inputA).2 from rfl, store_memories]
  rfl

theorem memA_memB_similarity : ¬(cfgF.associationStrength < memSimilarity memA memB) := by
  have hcc : compareContexts [("place", "x")] [("place", "x")] = 1 := by
    show ((1 : ℕ) : ℝ) / ((1 : ℕ) : ℝ) = 1
    norm_num
  simp only [memSimilarity,
    show memA.type = some "event" from rfl, show memB.type = some "event" from rfl,
    show memA.context = some [("place", "x")] from rfl,
    show memB.context = some [("place", "x")] from rfl,
    show memA.emotionalContext = (none : Option (List (String × ℝ))) from rfl,
    show memB.emotionalContext = (none : Option (List (String × ℝ))) from rfl,
    eq_self_iff_true, if_true]
  rw [hcc, memA_timestamp, memB_timestamp]
  norm_num [cfgF, Real.exp_zero]

theorem store_associations (cfg : MemoryConfig) (b : Bank) (ownerId freshId : String)
    (now : ℝ) (input : MemoryInput) :
    (store cfg b ownerId freshId now input).2.associations =
      addReverse
        (alSet b.associations (storeRecord cfg ownerId freshId now input).id
          (temporalAssocs cfg (storeStage2 cfg b ownerId freshId now input)
              (storeRecord cfg ownerId freshId now input) ++
            contextualAssocs (storeStage2 cfg b ownerId freshId now input)
              (storeRecord cfg ownerId freshId now input)))
        (storeRecord cfg ownerId freshId now input)
        (temporalAssocs cfg (storeStage2 cfg b ownerId freshId now input)
            (storeRecord cfg ownerId freshId now input) ++
          contextualAssocs (storeStage2 cfg b ownerId freshId now input)
            (storeRecord cfg ownerId freshId now input)) := by
  simp only [store]
  rw [updateIndices_associations]
  rfl

theorem bankAB_temporal :
    temporalAssocs cfgF (storeStage2 cfgF bankB "npc" "A" 1000 inputA)
      (storeRecord cfgF "npc" "A" 1000 inputA) = [] := by
  unfold temporalAssocs
  rw [show storeRecord cfgF "npc" "A" 1000 inputA = memA from rfl]
  rw [show (storeStage2 cfgF bankB "npc" "A" 1000 inputA).workingMemory.drop 1 = [memB]
    from rfl]
  simp only [List.filterMap_cons, List.filterMap_nil]
  rw [if_neg memA_memB_similarity]

theorem bankAB_contextual :
    contextualAssocs (storeStage2 cfgF bankB "npc" "A" 1000 inputA)
      (storeRecord cfgF "npc" "A" 1000 inputA) =
      [{ targetId := "B", strength := 0.5, type := "contextual" }] := by
  unfold contextualAssocs
  rw [show storeRecord cfgF "npc" "A" 1000 inputA = memA from rfl]
  simp only [show memA.context = some [("place", "x")] from rfl]
  rw [show findByContext (storeStage2 cfgF bankB "npc" "A" 1000 inputA) [("place", "x")] 5 =
      [memB] from rfl]
  simp only [List.filterMap_cons, List.filterMap_nil]
  rw [if_pos (show memB.id ≠ memA.id from by decide)]
  rfl

theorem bankAB_assoc :
    bankAB.associations =
      [("B", [{ targetId := "A", strength := 0.5, type := "contextual" }]),
       ("A", [{ targetId := "B", strength := 0.5, type := "contextual" }])] := by
  rw [show bankAB = (store cfgF bankB "npc" "A" 1000 inputA).2 from rfl, store_associations,
    bankAB_temporal, bankAB_contextual]
  rfl

theorem processForgetting_associations (cfg : MemoryConfig) (b : Bank) (now : ℝ) :
    (processForgetting cfg b now).associations =
      (categoriesList.foldl (fun acc c => acc ++ forgetRemovedIds cfg now (b.memories c))
        []).foldl (fun am id => alDelete am id) b.associations := rfl

theorem bankAB_forget_epi :
    forgetCategory cfgF nowF [("B", memB), ("A", memA)] =
      [("B", forgetMemory cfgF nowF memB)] := by
  unfold forgetCategory
  simp only [List.filterMap_cons, List.filterMap_nil]
  rw [if_neg memB_not_recent, if_neg memB_kept, if_neg memA_not_recent, if_pos memA_evicted]

theorem bankAB_removed :
    categoriesList.foldl (fun acc c => acc ++ forgetRemovedIds cfgF nowF (bankAB.memories c))
      [] = ["A"] := by
  simp only [categoriesList, List.foldl_cons, List.foldl_nil]
  rw [bankAB_epi, bankAB_sem, bankAB_proc, bankAB_emo]
  have h1 : forgetRemovedIds cfgF nowF [("B", memB), ("A", memA)] = ["A"] := by
    unfold forgetRemovedIds
    simp only [List.filterMap_cons, List.filterMap_nil]
    rw [if_neg memB_not_recent, if_neg memB_kept, if_neg memA_not_recent,
      if_pos memA_evicted]
  rw [h1]
  rfl

/-- Counterexample for C8 as frozen: after storing record B and then
record A with the same context (which creates the mutual contextual
association pair), one forgetting pass three days later evicts A — it is
gone from the episodic map and its own adjacency list is deleted — yet
B's adjacency list still holds its edge to the evicted A. -/
theorem c8_counterexample :
    alGet (bankAfter.memories MemCategory.episodic) "A" = none ∧
      alGet bankAfter.associations "A" = none ∧
      alGet bankAfter.associations "B" =
        some [{ targetId := "A", strength := 0.5, type := "contextual" }] := by
  refine ⟨?_, ?_, ?_⟩
  · rw [show bankAfter = processForgetting cfgF bankAB nowF from rfl,
      processForgetting_memories, bankAB_epi, bankAB_forget_epi]
    rfl
  · rw [show bankAfter = processForgetting cfgF bankAB nowF from rfl,
      processForgetting_associations, bankAB_removed, bankAB_assoc]
    rfl
  · rw [show bankAfter = processForgetting cfgF bankAB nowF from rfl,
      processForgetting_associations, bankAB_removed, bankAB_assoc]
    rfl

theorem keyed_nodup_mem_eq {α : Type} (l : List (String × α))
    (h : (l.map Prod.fst).Nodup) (k : String) (x y : α)
    (hx : (k, x) ∈ l) (hy : (k, y) ∈ l) : x = y := by
  induction l with
  | nil => simp at hx
  | cons p rest ih =>
      simp only [List.map_cons, List.nodup_cons] at h
      rcases List.mem_cons.mp hx with hx' | hx'
      · rcases List.mem_cons.mp hy with hy' | hy'
        · have hxy : (k, x) = (k, y) := hx'.trans hy'.symm
          exact (Prod.ext_iff.mp hxy).2
        · exfalso
          apply h.1
          rw [← hx']
          have hk := List.mem_map_of_mem Prod.fst hy'
          exact hk
      · rcases List.mem_cons.mp hy with hy' | hy'
        · exfalso
          apply h.1
          rw [← hy']
          have hk := List.mem_map_of_mem Prod.fst hx'
          exact hk
        · exact ih h.2 hx' hy'

theorem mem_foldl_append {α β : Type} (f : β → List α) (L : List β) (a : α) :
    ∀ acc : List α, (a ∈ acc ∨ ∃ x ∈ L, a ∈ f x) →
      a ∈ L.foldl (fun acc x => acc ++ f x) acc := by
  induction L with
  | nil =>
      intro acc h
      rcases h with h | ⟨x, hx, _⟩
      · exact h
      · simp at hx
  | cons y rest ih =>
      intro acc h
      simp only [List.foldl_cons]
      apply ih
      rcases h with h | ⟨x, hx, hfx⟩
      · exact Or.inl (List.mem_append_left _ h)
      · rcases List.mem_cons.mp hx with rfl | hx'
        · exact Or.inl (List.mem_append_right _ hfx)
        · exact Or.inr ⟨x, hx', hfx⟩

/-- C8 (amended).  A record that was not accessed in the last 60 seconds
and whose decayed strength falls below 0.1 is removed from its category
map, and its own adjacency list is deleted from the association graph —
but, per the counterexample, edges pointing to it from other records'
adjacency lists are not removed. -/
theorem c8_eviction_removes_record_and_own_list :
    ∀ (cfg : MemoryConfig) (b : Bank) (now : ℝ) (c : MemCategory) (id : String)
      (m : Memory),
      ((b.memories c).map Prod.fst).Nodup →
      (id, m) ∈ b.memories c →
      ¬recentlyAccessed m now →
      (forgetMemory cfg now m).strength < 0.1 →
      (∀ m', (id, m') ∉ (processForgetting cfg b now).memories c) ∧
      alGet (processForgetting cfg b now).associations id = none := by
  intro cfg b now c id m hnodup hmem hrec hevict
  constructor
  · intro m' hmem'
    rw [processForgetting_memories] at hmem'
    obtain ⟨p, hp, heq⟩ := List.mem_filterMap.mp hmem'
    split_ifs at heq with h1 h2
    · have hpe := Option.some.inj heq
      rw [hpe] at hp h1
      have hm'm : m' = m := keyed_nodup_mem_eq _ hnodup id m' m hp hmem
      rw [hm'm] at h1
      exact hrec h1
    · have hpe := Option.some.inj heq
      have hp1 : p.1 = id := congrArg Prod.fst hpe
      have hp' : (id, p.2) ∈ b.memories c := by
        rw [← hp1, Prod.mk.eta]
        exact hp
      have hpm : p.2 = m := keyed_nodup_mem_eq _ hnodup id p.2 m hp' hmem
      rw [hpm] at h2
      exact h2 hevict
  · have hin : id ∈ forgetRemovedIds cfg now (b.memories c) := by
      apply List.mem_filterMap.mpr
      refine ⟨(id, m), hmem, ?_⟩
      rw [if_neg hrec, if_pos hevict]
    have hid_removed : id ∈ categoriesList.foldl
        (fun acc c' => acc ++ forgetRemovedIds cfg now (b.memories c')) [] :=
      mem_foldl_append _ categoriesList id []
        (Or.inr ⟨c, by cases c <;> simp [categoriesList], hin⟩)
    rw [processForgetting_associations]
    exact (alGet_foldDelete _ _ _).1 hid_removed

/-- Witness for C8's amended eviction at the concrete one-record bank. -/
theorem c8_eviction_removes_record_and_own_list_witness :
    alGet (processForgetting cfgF bankW nowF).associations "A" = none :=
  (c8_eviction_removes_record_and_own_list cfgF bankW nowF MemCategory.episodic "A" memA
    (by simp [bankW])
    (by simp [bankW])
    memA_not_recent
    memA_evicted).2

end AdaptiveNPC

